import Mathlib

/-!
Verification development for the okxgo offline backtesting engine.

Embedding conventions:
* Go `float64` values are modelled by the type `F` below: an exact rational
  (`F.fin`) or one of the IEEE special values NaN, +Inf, -Inf.  Signed zeros
  and rounding are not modelled (decimal literals such as `1e-9` or `0.05`
  are taken exactly); the transcendental functions `math.Log` / `math.Exp`
  are modelled by `flog rlog` / `fexp rexp`, which follow the IEEE special
  cases exactly and delegate the finite-positive (resp. finite) part to
  explicit parameters `rlog rexp : ℚ → ℚ`.  Overflow of `exp` to +Inf is not
  modelled.
* Go `int`/`int64` are modelled by `ℤ`.
* Go maps are modelled by association lists with insert-overwrite (`aset`);
  the unspecified iteration order of a Go `map` `range` loop is modelled by
  an explicit ordering oracle where the engine ranges over a map.
* The risk adapter (risk_adapter.go) does not interact with the special
  float values in the claims about it, so it is embedded directly over ℚ.
-/

namespace OkxGo

/-- Model of a Go float64 value: a finite rational or an IEEE special value. -/
inductive F where
  | fin (q : ℚ)
  | nan
  | pinf
  | ninf
deriving DecidableEq

namespace F

/-- IEEE negation. -/
def fneg : F → F
  | fin q => fin (-q)
  | nan => nan
  | pinf => ninf
  | ninf => pinf

/-- IEEE addition (signed zeros ignored). -/
def fadd : F → F → F
  | nan, _ => nan
  | _, nan => nan
  | pinf, ninf => nan
  | ninf, pinf => nan
  | pinf, _ => pinf
  | _, pinf => pinf
  | ninf, _ => ninf
  | _, ninf => ninf
  | fin a, fin b => fin (a + b)

/-- IEEE subtraction. -/
def fsub (a b : F) : F := fadd a (fneg b)

/-- IEEE multiplication. -/
def fmul : F → F → F
  | nan, _ => nan
  | _, nan => nan
  | pinf, pinf => pinf
  | pinf, ninf => ninf
  | ninf, pinf => ninf
  | ninf, ninf => pinf
  | pinf, fin b => if 0 < b then pinf else if b < 0 then ninf else nan
  | ninf, fin b => if 0 < b then ninf else if b < 0 then pinf else nan
  | fin a, pinf => if 0 < a then pinf else if a < 0 then ninf else nan
  | fin a, ninf => if 0 < a then ninf else if a < 0 then pinf else nan
  | fin a, fin b => fin (a * b)

/-- IEEE division (sign of zero ignored: a nonzero finite value divided by
zero gets the sign of the numerator). -/
def fdiv : F → F → F
  | nan, _ => nan
  | _, nan => nan
  | pinf, pinf => nan
  | pinf, ninf => nan
  | ninf, pinf => nan
  | ninf, ninf => nan
  | pinf, fin b => if b < 0 then ninf else pinf
  | ninf, fin b => if b < 0 then pinf else ninf
  | fin _, pinf => fin 0
  | fin _, ninf => fin 0
  | fin a, fin b =>
      if b = 0 then (if 0 < a then pinf else if a < 0 then ninf else nan)
      else fin (a / b)

/-- IEEE strict comparison `<`: any comparison involving NaN is false. -/
def flt : F → F → Bool
  | nan, _ => false
  | _, nan => false
  | fin a, fin b => a < b
  | fin _, pinf => true
  | fin _, ninf => false
  | pinf, _ => false
  | ninf, ninf => false
  | ninf, _ => true

/-- IEEE equality `==`: NaN is not equal to anything, including itself. -/
def fbeq : F → F → Bool
  | nan, _ => false
  | _, nan => false
  | fin a, fin b => a = b
  | pinf, pinf => true
  | ninf, ninf => true
  | _, _ => false

/-- IEEE `<=`. -/
def fle (a b : F) : Bool := flt a b || fbeq a b

/-- IEEE absolute value. -/
def fabs : F → F
  | fin q => fin |q|
  | nan => nan
  | pinf => pinf
  | ninf => pinf

/-- Go `math.Max`: NaN if either argument is NaN, otherwise the larger. -/
def fmaxGo (a b : F) : F :=
  if a = nan ∨ b = nan then nan else if flt a b then b else a

/-- Model of `math.Exp`: IEEE special cases, with the finite part delegated
to the parameter `rexp`. -/
def fexp (rexp : ℚ → ℚ) : F → F
  | fin q => fin (rexp q)
  | nan => nan
  | pinf => pinf
  | ninf => fin 0

/-- Model of `math.Log`: IEEE special cases (`log NaN = NaN`, `log x = NaN`
for `x < 0`, `log 0 = -Inf`, `log +Inf = +Inf`), with the finite positive
part delegated to the parameter `rlog`. -/
def flog (rlog : ℚ → ℚ) : F → F
  | fin q => if 0 < q then fin (rlog q) else if q = 0 then ninf else nan
  | nan => nan
  | pinf => pinf
  | ninf => nan

end F

open F

/-! Evaluation lemmas for `F` operations on finite arguments, used to
compute concrete runs (IEEE special values never arise there). -/

@[simp] theorem fneg_fin (a : ℚ) : fneg (F.fin a) = F.fin (-a) := rfl

@[simp] theorem fadd_fin (a b : ℚ) : fadd (F.fin a) (F.fin b) = F.fin (a + b) := rfl

@[simp] theorem fsub_fin (a b : ℚ) : fsub (F.fin a) (F.fin b) = F.fin (a - b) := by
  simp [fsub, sub_eq_add_neg]

@[simp] theorem fmul_fin (a b : ℚ) : fmul (F.fin a) (F.fin b) = F.fin (a * b) := rfl

@[simp] theorem fdiv_fin (a b : ℚ) (h : b ≠ 0) :
    fdiv (F.fin a) (F.fin b) = F.fin (a / b) := by
  simp [fdiv, h]

@[simp] theorem flt_fin (a b : ℚ) : flt (F.fin a) (F.fin b) = decide (a < b) := rfl

@[simp] theorem fbeq_fin (a b : ℚ) : fbeq (F.fin a) (F.fin b) = decide (a = b) := rfl

@[simp] theorem fabs_fin (a : ℚ) : fabs (F.fin a) = F.fin |a| := rfl

@[simp] theorem fmaxGo_fin (a b : ℚ) :
    fmaxGo (F.fin a) (F.fin b) = F.fin (max a b) := by
  unfold fmaxGo
  rw [if_neg (by simp)]
  rcases lt_trichotomy a b with h | h | h
  · simp [flt, h, max_eq_right (le_of_lt h)]
  · simp [flt, h]
  · simp [flt, not_lt_of_gt h, max_eq_left (le_of_lt h)]

@[simp] theorem fexp_fin (rexp : ℚ → ℚ) (a : ℚ) :
    fexp rexp (F.fin a) = F.fin (rexp a) := rfl

@[simp] theorem flog_fin_pos (rlog : ℚ → ℚ) (a : ℚ) (h : 0 < a) :
    flog rlog (F.fin a) = F.fin (rlog a) := by
  simp [flog, h]

/-- Association-list lookup, modelling Go map read (`m[k]`). -/
def alookup {α : Type} (m : List (String × α)) (k : String) : Option α :=
  match m with
  | [] => none
  | (k', v) :: rest => if k' = k then some v else alookup rest k

/-- Association-list insert-overwrite, modelling Go map write (`m[k] = v`). -/
def aset {α : Type} (m : List (String × α)) (k : String) (v : α) :
    List (String × α) :=
  match m with
  | [] => [(k, v)]
  | (k', v') :: rest => if k' = k then (k, v) :: rest else (k', v') :: aset rest k v

theorem alookup_aset_self {α : Type} (m : List (String × α)) (k : String) (v : α) :
    alookup (aset m k v) k = some v := by
  induction m with
  | nil => simp [aset, alookup]
  | cons hd tl ih =>
    obtain ⟨k', v'⟩ := hd
    by_cases h : k' = k <;> simp [aset, alookup, h, ih]

theorem aset_lookup_self {α : Type} (m : List (String × α)) (k : String) (v : α)
    (h : alookup m k = some v) : aset m k v = m := by
  induction m with
  | nil => simp [alookup] at h
  | cons hd tl ih =>
    obtain ⟨k', v'⟩ := hd
    by_cases hk : k' = k
    · subst hk
      simp [alookup] at h
      simp [aset, h]
    · simp only [alookup, if_neg hk] at h
      simp [aset, hk, ih h]

theorem alookup_aset_ne {α : Type} (m : List (String × α)) (k k' : String) (v : α)
    (h : k ≠ k') : alookup (aset m k v) k' = alookup m k' := by
  induction m with
  | nil => simp [aset, alookup, h]
  | cons hd tl ih =>
    obtain ⟨k0, v0⟩ := hd
    by_cases h0 : k0 = k
    · subst h0
      simp [aset, alookup, h]
    · simp only [aset, if_neg h0]
      by_cases h1 : k0 = k' <;> simp [alookup, h1, ih]

/-! ## Backtest kernel data model (src/unnamed/part_001, package backtest) -/

/-- Candle (OHLCV bar): `type Candle struct` of the backtest package. -/
structure Candle where
  instID : String
  t : ℤ
  o : F
  h : F
  l : F
  c : F
  v : F
deriving DecidableEq

/-- Strategy signal. `Meta map[string]any` is modelled as an association
list of its numeric entries; the kernel itself never reads `Meta`. -/
structure Signal where
  instID : String
  side : String
  size : F
  price : F
  tag : String
  meta : List (String × F)
deriving DecidableEq

/-- Risk action (`type Action struct`); the Go field `Type` is `typ` here. -/
structure Action where
  instID : String
  typ : String
  reason : String
  size : F
  price : F
  meta : List (String × F)
deriving DecidableEq

/-- Fill hook (`type FillHook func(...) (fillPrice, extraCostBps float64)`),
modelled as a pure function. -/
def FillHook : Type := String → String → F → F → F × F

/-- Backtest configuration (`type Config struct`).  The hook fields
`BeforeFill`/`AfterFill` are `Option FillHook` (`nil` = `none`). -/
structure Config where
  initialEquity : F
  barMinutes : ℤ
  tradeOnNextBar : Bool
  takerFeeBps : F
  makerFeeBps : F
  slippageBps : F
  useMaker : Bool
  minRebalanceStep : F
  maxAbsPosition : F
  beforeFill : Option FillHook
  afterFill : Option FillHook

/-- `func (c *Config) withDefaults() Config`: zero-valued fields are
replaced by the documented defaults. -/
def Config.withDefaults (c : Config) : Config :=
  let q := c
  let q := if q.initialEquity = F.fin 0 then { q with initialEquity := F.fin 1 } else q
  let q := if q.barMinutes = 0 then { q with barMinutes := 5 } else q
  let q := if q.takerFeeBps = F.fin 0 then { q with takerFeeBps := F.fin 6 } else q
  let q := if q.slippageBps = F.fin 0 then { q with slippageBps := F.fin 3 } else q
  let q := if q.minRebalanceStep = F.fin 0 then { q with minRebalanceStep := F.fin (5/100) } else q
  let q := if q.maxAbsPosition = F.fin 0 then { q with maxAbsPosition := F.fin 1 } else q
  q

/-- Closed trade record (`type Trade struct`, part_001 lines 129-138).  The
Go field `Return` is `ret` here.  Note: this struct has no
sub-strategy/regime/stop-type/ATR fields. -/
structure Trade where
  instID : String
  dir : String
  entryTime : ℤ
  entryPrice : F
  exitTime : ℤ
  exitPrice : F
  size : F
  ret : F
deriving DecidableEq

/-- Per-bar equity record (`type BarRecord struct`). -/
structure BarRecord where
  ts : ℤ
  equity : F
  retv : F
  drawdown : F
deriving DecidableEq

/-- Backtest result.  The `CAGR` and `Sharpe` summary fields of the Go
`Result` involve `math.Pow`/`math.Sqrt` over the aggregate-return series and
are outside this model; no claim refers to them. -/
structure Result where
  equityCurve : List BarRecord
  trades : List Trade
  finalEquity : F
  totalRet : F
  maxDD : F
  winRate : F
  numTrades : ℤ
deriving DecidableEq

/-- Pending rebalance target (`type pending struct`). -/
structure Pending where
  target : F
  applyAt : ℤ
deriving DecidableEq

/-- Per-instrument kernel state (`type instState struct`). -/
structure InstState where
  lastClose : F
  pos : F
  entryPx : F
  entryTs : ℤ
  holding : ℤ
  pendingTarget : Option Pending
deriving DecidableEq

/-- Zero value of `instState` (`&instState{}`). -/
def instState0 : InstState :=
  { lastClose := F.fin 0, pos := F.fin 0, entryPx := F.fin 0, entryTs := 0,
    holding := 0, pendingTarget := none }

/-! ## Kernel helpers (part_001 lines 495-626) -/

/-- `func refPriceForFill(next bool, k Candle) float64`. -/
def refPriceForFill (next : Bool) (k : Candle) : F :=
  if next then k.o else k.c

/-- `func dirName(pos float64) string`. -/
def dirName (pos : F) : String :=
  if flt (F.fin 0) pos then "long" else "short"

/-- `func sideOf(delta float64) string` (`delta >= 0` is `buy`). -/
def sideOf (delta : F) : String :=
  if fle (F.fin 0) delta then "buy" else "sell"

/-- `func clamp(x, lo, hi float64) float64` of the backtest package. -/
def clamp (x lo hi : F) : F :=
  if flt x lo then lo else if flt hi x then hi else x

/-- `func sign(x float64) float64` (note: `sign NaN = 0`, since both Go
comparisons are false on NaN). -/
def sign (x : F) : F :=
  if flt x (F.fin 0) then F.fin (-1) else if flt (F.fin 0) x then F.fin 1 else F.fin 0

/-- `func nextBarTs(ts int64, barMin int) int64`. -/
def nextBarTs (ts : ℤ) (barMin : ℤ) : ℤ := ts + barMin * 60 * 1000

/-- `func decideApplyTs(ts int64, next bool, barMin int) int64`. -/
def decideApplyTs (ts : ℤ) (next : Bool) (barMin : ℤ) : ℤ :=
  if next then nextBarTs ts barMin else ts

/-! ## Flattening and time-axis grouping (part_001 lines 517-552)

Go sorts with `sort.SliceStable`; a stable sort's output is uniquely
determined by the comparison function, so it is modelled by a stable
insertion sort (structurally recursive, hence evaluable). -/

/-- Stable insertion of `x` into `l`: `x` goes before the first element it
is strictly `less` than, hence after any element tied with it. -/
def sInsert {α : Type} (less : α → α → Bool) (x : α) : List α → List α
  | [] => [x]
  | y :: ys => if less x y then x :: y :: ys else y :: sInsert less x ys

/-- Stable sort by a strict comparison, modelling `sort.SliceStable`. -/
def stableSort {α : Type} (less : α → α → Bool) (l : List α) : List α :=
  l.foldl (fun acc x => sInsert less x acc) []

/-- The comparison closure used by `flatten`: ascending `(T, InstID)`. -/
def candLess (a b : Candle) : Bool :=
  if a.t = b.t then a.instID < b.instID else decide (a.t < b.t)

/-- `func flatten(s Series) []Candle`: per-instrument stable sort, fill in
empty `InstID` from the map key, then a global stable sort by `(T, InstID)`.
The iteration order over the `Series` map is the list order of the
association list; see the determinism theorems for its irrelevance. -/
def flatten (s : List (String × List Candle)) : List Candle :=
  let out := (s.map (fun p =>
    let sorted := stableSort candLess p.2
    sorted.map (fun k => if k.instID = "" then { k with instID := p.1 } else k))).flatten
  stableSort candLess out

/-- `func findInGroup(group []Candle, inst string) *Candle` (first match). -/
def findInGroup (group : List Candle) (inst : String) : Option Candle :=
  group.find? (fun k => k.instID = inst)

/-- The main loop of `Run` walks the flattened sequence grouping runs of
equal timestamps (`for j < len(all) && all[j].T == ts`); on a list this is
grouping of consecutive bars with equal `T`. -/
def groupsByTs (l : List Candle) : List (List Candle) :=
  l.foldr (fun k gs =>
    match gs with
    | [] => [[k]]
    | g :: rest =>
      match g with
      | [] => [k] :: rest
      | k' :: _ => if k.t = k'.t then (k :: g) :: rest else [k] :: g :: rest) []

/-! ## Component interfaces (part_001 lines 58-77)

The Go interfaces `Strategy`, `Risk`, `Portfolio` are stateful objects;
they are modelled as records of step functions over an explicit state
type. -/

/-- `Strategy` interface (only `OnCandle` is exercised by `Run`). -/
structure StrategyM (σ : Type) where
  name : String
  onCandle : σ → Candle → σ × List Signal

/-- `Risk` interface. `approve` returns the updated risk state, the
approved target and the actions. -/
structure RiskM (ρ : Type) where
  onCandle : ρ → Candle → ρ
  approve : ρ → String → F → F → F → ℤ → ρ × F × List Action

/-- `Portfolio` interface. -/
structure PortfolioM (π : Type) where
  propose : π → List (String × F) → π × List (String × F)
  setStrategyTargets : π → String → List (String × F) → π
  onCandle : π → Candle → π

/-- Running state of `Engine.Run`'s main loop (its local variables). -/
structure RunState (σ ρ π : Type) where
  eq : F
  peak : F
  maxDD : F
  states : List (String × InstState)
  curve : List BarRecord
  trades : List Trade
  sstate : σ
  rstate : ρ
  pstate : π

/-! ## Fill application (`Engine.applyFill`, part_001 lines 431-493) -/

/-- `func (e *Engine) applyFill(...)`: applies one pending target, charging
the fee+slippage cost on turnover and recording a closed `Trade` when the
position change crosses or reaches zero.  Returns the updated
`(states, trades, eq)`. -/
def applyFill (rlog : ℚ → ℚ) (cfg : Config) (before after : Option FillHook)
    (states : List (String × InstState)) (inst : String) (target refPx0 : F)
    (ts : ℤ) (trades : List Trade) (eq : F) :
    List (String × InstState) × List Trade × F :=
  match alookup states inst with
  | none => (states, trades, eq)
  | some s =>
    let cur := s.pos
    if flt (fabs (fsub target cur)) (F.fin (1/1000000000)) then (states, trades, eq)
    else
      let fee := if cfg.useMaker then cfg.makerFeeBps else cfg.takerFeeBps
      let costBps := fadd fee cfg.slippageBps
      let pr :=
        match before with
        | some hk =>
            let r := hk inst (sideOf (fsub target cur)) (fabs (fsub target cur)) refPx0
            ((if flt (F.fin 0) r.1 then r.1 else refPx0), fadd costBps r.2)
        | none => (refPx0, costBps)
      let refPx := pr.1
      let costBps := pr.2
      let turnover := fabs (fsub target cur)
      let eq := fmul eq (fsub (F.fin 1) (fmul turnover (fdiv costBps (F.fin 10000))))
      let closing := !(fbeq cur (F.fin 0)) &&
        (fbeq target (F.fin 0) || !(fbeq (sign target) (sign cur)))
      let opening := fbeq cur (F.fin 0) && !(fbeq target (F.fin 0))
      let s := { s with pos := target }
      let st :=
        if closing then
          let ret := fmul (fmul (sign cur)
            (flog rlog (fdiv refPx (fadd s.entryPx (F.fin (1/1000000000000)))))) (fabs cur)
          let trades := trades ++
            [{ instID := inst, dir := dirName cur, entryTime := s.entryTs,
               entryPrice := s.entryPx, exitTime := ts, exitPrice := refPx,
               size := fabs cur, ret := ret }]
          let s := if !(fbeq target (F.fin 0)) then { s with entryPx := refPx, entryTs := ts }
                   else { s with entryPx := F.fin 0, entryTs := 0 }
          (s, trades)
        else if opening then ({ s with entryPx := refPx, entryTs := ts }, trades)
        else (s, trades)
      let eq :=
        match after with
        | some hk =>
            let r := hk inst (sideOf (fsub target cur)) (fabs (fsub target cur)) refPx
            if !(fbeq r.2 (F.fin 0)) then
              fmul eq (fsub (F.fin 1) (fmul turnover (fdiv r.2 (F.fin 10000))))
            else eq
        | none => eq
      (aset states inst st.1, st.2, eq)

/-! ## The per-group phases of `Engine.Run` (part_001 lines 243-402) -/

/-- Step 2.1: combined portfolio log-return of the group, from the
positions held coming into the bar. -/
def groupSumRet (rlog : ℚ → ℚ) (states : List (String × InstState))
    (group : List Candle) : F :=
  group.foldl (fun acc k =>
    match alookup states k.instID with
    | some st =>
        if flt (F.fin 0) st.lastClose && !(fbeq st.pos (F.fin 0)) then
          fadd acc (fmul st.pos (flog rlog (fdiv k.c st.lastClose)))
        else acc
    | none => acc) (F.fin 0)

/-- The `side`-to-target mapping applied to one signal in step 2.3
(`buy` keeps `math.Max(v, 0)`, `sell` negates it, `close` zeroes it, any
other side leaves `v = s.Size`), followed by the clamp. -/
def sideTargetVal (maxAbs : F) (s : Signal) : F :=
  let v := s.size
  let v := if s.side = "buy" then fmaxGo v (F.fin 0)
           else if s.side = "sell" then fneg (fmaxGo v (F.fin 0))
           else if s.side = "close" then F.fin 0
           else v
  clamp v (fneg maxAbs) maxAbs

/-- Step 2.3 (no-portfolio branch, part_001 lines 309-322): fold the
signals into the `targets` map, later signals overwriting earlier ones for
the same instrument. -/
def resolveTargets (maxAbs : F) (sigs : List Signal) : List (String × F) :=
  sigs.foldl (fun tgts s => aset tgts s.instID (sideTargetVal maxAbs s)) []

/-- Step 2.4 body for a single `(inst, tgt)` pair of the `targets` map:
skip when the move is below `MinRebalanceStep`, otherwise consult risk and
schedule a pending target (risk close/halt actions force target 0; an
already-present pending is left in place and the new target dropped). -/
def scheduleInst {ρ : Type} (cfg : Config) (risk : Option (RiskM ρ)) (ts : ℤ)
    (group : List Candle) (acc : List (String × InstState) × ρ)
    (inst : String) (tgt : F) : List (String × InstState) × ρ :=
  let states := acc.1
  let r := acc.2
  let ss := (alookup states inst).getD instState0
  let states := if (alookup states inst).isNone then aset states inst instState0 else states
  let cur := ss.pos
  if flt (fabs (fsub tgt cur)) cfg.minRebalanceStep then (states, r)
  else
    let ar : ρ × F × List Action :=
      match risk with
      | none => (r, tgt, [])
      | some rm =>
          let ref := ss.lastClose
          let ref := if fbeq ref (F.fin 0) then
              (match findInGroup group inst with
               | some k => k.c
               | none => ref)
            else ref
          rm.approve r inst cur tgt ref ss.holding
    let r := ar.1
    let approved := ar.2.1
    let acts := ar.2.2
    let pend := if acts.any (fun a => a.typ = "close" || a.typ = "halt") then
        some { target := F.fin 0, applyAt := decideApplyTs ts cfg.tradeOnNextBar cfg.barMinutes }
      else ss.pendingTarget
    let pend := match pend with
      | none => some { target := approved, applyAt := decideApplyTs ts cfg.tradeOnNextBar cfg.barMinutes }
      | some p => some p
    (aset states inst { ss with pendingTarget := pend }, r)

/-- Step 2.4 over the whole `targets` map.  Go ranges over the map in
unspecified order; the order is supplied by the oracle `pick`, which is
applied to the insertion-ordered key list. -/
def scheduleTargets {ρ : Type} (pick : List String → List String) (cfg : Config)
    (risk : Option (RiskM ρ)) (ts : ℤ) (group : List Candle)
    (targets : List (String × F)) (states : List (String × InstState)) (r : ρ) :
    List (String × InstState) × ρ :=
  (pick (targets.map Prod.fst)).foldl (fun acc inst =>
    match alookup targets inst with
    | some tgt => scheduleInst cfg risk ts group acc inst tgt
    | none => acc) (states, r)

/-- Step 2.6: apply every pending whose `applyAt` has been reached, at the
fill reference price of the instrument's bar in this group, then clear it. -/
def applyPendings (rlog : ℚ → ℚ) (cfg : Config) (before after : Option FillHook)
    (ts : ℤ) (group : List Candle)
    (acc0 : List (String × InstState) × List Trade × F) :
    List (String × InstState) × List Trade × F :=
  group.foldl (fun acc k =>
    let states := acc.1
    match alookup states k.instID with
    | some st =>
        match st.pendingTarget with
        | some p =>
            if p.applyAt ≤ ts then
              let price := refPriceForFill cfg.tradeOnNextBar k
              let out := applyFill rlog cfg before after states k.instID p.target price ts acc.2.1 acc.2.2
              let st' := (alookup out.1 k.instID).getD instState0
              (aset out.1 k.instID { st' with pendingTarget := none }, out.2.1, out.2.2)
            else acc
        | none => acc
    | none => acc) acc0

/-- Step 2.7: roll `lastClose` and the holding-bar counter. -/
def rollStates (states : List (String × InstState)) (group : List Candle) :
    List (String × InstState) :=
  group.foldl (fun states k =>
    let st := (alookup states k.instID).getD instState0
    aset states k.instID
      { st with lastClose := k.c,
                holding := if !(fbeq st.pos (F.fin 0)) then st.holding + 1 else 0 }) states

/-- Step 2.3 (portfolio branch, part_001 lines 284-308): mark prices, the
per-signal `want` map, `SetStrategyTargets`, `Propose`, and the copy of the
aggregate into `targets`. -/
def portfolioTargets {π : Type} (port : PortfolioM π) (name : String) (maxAbs : F)
    (group : List Candle) (sigs : List Signal) (p : π) : π × List (String × F) :=
  let mark := group.foldl (fun m k => aset m k.instID k.c) []
  let want := sigs.foldl (fun w s => aset w s.instID (sideTargetVal maxAbs s)) []
  let p := port.setStrategyTargets p name want
  let pr := port.propose p mark
  (pr.1, pr.2.foldl (fun t kv => aset t kv.1 kv.2) [])

/-- One iteration of the main loop of `Engine.Run` (steps 2.1-2.8) over a
single timestamp group. -/
def groupStep {σ ρ π : Type} (rlog rexp : ℚ → ℚ) (pick : List String → List String)
    (cfg : Config) (strat : StrategyM σ) (risk : Option (RiskM ρ))
    (port : Option (PortfolioM π)) (rs : RunState σ ρ π) (group : List Candle) :
    RunState σ ρ π :=
  let ts := match group with
    | [] => 0
    | k :: _ => k.t
  -- 2.1 combined return from positions coming into the bar
  let sumRet := groupSumRet rlog rs.states group
  -- 2.2 propagate bars to risk / portfolio
  let rstate := match risk with
    | some rm => group.foldl rm.onCandle rs.rstate
    | none => rs.rstate
  let pstate := match port with
    | some pm => group.foldl pm.onCandle rs.pstate
    | none => rs.pstate
  -- strategy signals for the group
  let ssigs := group.foldl (fun acc k =>
    let r := strat.onCandle acc.1 k
    (r.1, acc.2 ++ r.2)) (rs.sstate, ([] : List Signal))
  let sstate := ssigs.1
  let sigs := ssigs.2
  -- 2.3 resolve targets
  let pt : π × List (String × F) := match port with
    | some pm => portfolioTargets pm strat.name cfg.maxAbsPosition group sigs pstate
    | none => (pstate, resolveTargets cfg.maxAbsPosition sigs)
  let pstate := pt.1
  let targets := pt.2
  -- 2.4 approve and schedule
  let sr := scheduleTargets pick cfg risk ts group targets rs.states rstate
  let states := sr.1
  let rstate := sr.2
  -- 2.5 apply the combined return
  let eq := if !(fbeq sumRet (F.fin 0)) then fmul rs.eq (fexp rexp sumRet) else rs.eq
  -- 2.6 apply due pendings
  let ap := applyPendings rlog cfg cfg.beforeFill cfg.afterFill ts group (states, rs.trades, eq)
  let states := ap.1
  let trades := ap.2.1
  let eq := ap.2.2
  -- 2.7 roll last close / holding
  let states := rollStates states group
  -- 2.8 drawdown and curve
  let peak := if flt rs.peak eq then eq else rs.peak
  let dd := fdiv (fsub peak eq) (fadd peak (F.fin (1/1000000000000)))
  let maxDD := if flt rs.maxDD dd then dd else rs.maxDD
  let curve := rs.curve ++ [{ ts := ts, equity := eq, retv := sumRet, drawdown := dd }]
  { eq := eq, peak := peak, maxDD := maxDD, states := states, curve := curve,
    trades := trades, sstate := sstate, rstate := rstate, pstate := pstate }

/-- `func (e *Engine) Run(series Series) Result`.  `cfg0` is the config
handed to `New` (which applies `withDefaults`); `pick` is the iteration
oracle for the `targets` map range in step 2.4.  The strategy is a required
component here (`Run` returns an empty result when it is `nil`); risk and
portfolio are optional as in Go. -/
def run {σ ρ π : Type} (rlog rexp : ℚ → ℚ) (pick : List String → List String)
    (cfg0 : Config) (strat : StrategyM σ) (risk : Option (RiskM ρ))
    (port : Option (PortfolioM π)) (s0 : σ) (r0 : ρ) (p0 : π)
    (series : List (String × List Candle)) : Result :=
  let cfg := cfg0.withDefaults
  let all := flatten series
  if all = [] then
    { equityCurve := [], trades := [], finalEquity := F.fin 0, totalRet := F.fin 0,
      maxDD := F.fin 0, winRate := F.fin 0, numTrades := 0 }
  else
    let states0 := series.foldl (fun st p => aset st p.1 instState0) []
    let init : RunState σ ρ π :=
      { eq := cfg.initialEquity, peak := cfg.initialEquity, maxDD := F.fin 0,
        states := states0, curve := [], trades := [], sstate := s0, rstate := r0,
        pstate := p0 }
    let fin := (groupsByTs all).foldl (groupStep rlog rexp pick cfg strat risk port) init
    let wins := fin.trades.foldl (fun n tr => if flt (F.fin 0) tr.ret then n + 1 else n) (0 : ℤ)
    { equityCurve := fin.curve, trades := fin.trades, finalEquity := fin.eq,
      totalRet := fsub (fdiv fin.eq cfg.initialEquity) (F.fin 1),
      maxDD := fin.maxDD,
      winRate := if fin.trades.length > 0 then
          F.fin ((wins : ℚ) / (fin.trades.length : ℚ)) else F.fin 0,
      numTrades := if fin.trades.length > 0 then (fin.trades.length : ℤ) else 0 }

/-! ## main.go helpers -/

/-- `func nonZeroOr(x, d int) int` (main.go line 1291). -/
def nonZeroOr (x d : ℤ) : ℤ := if x > 0 then x else d

/-- `func nonZeroOrFloat(x, d float64) float64` (main.go line 1298). -/
def nonZeroOrFloat (x d : ℚ) : ℚ := if x > 0 then x else d

/-- `func clamp(x, lo, hi float64) float64` of package main (line 1305),
over ℚ for use by the risk-adapter embedding. -/
def clampQ (x lo hi : ℚ) : ℚ := if x < lo then lo else if x > hi then hi else x

/-- `func boolValue(ptr *bool, def bool) bool` (strategy_adapter.go). -/
def boolValue (ptr : Option Bool) (def_ : Bool) : Bool :=
  match ptr with
  | none => def_
  | some b => b

/-- Loop body of `ensureAscUnique`: the accumulator is `(out, lastTs)`;
a row with `k.T <= lastTs` is skipped (both the `==` and the `<` branch of
the Go loop `continue`), otherwise it is appended and `lastTs` updated. -/
def ensureAscUniqueStep (acc : List Candle × ℤ) (k : Candle) : List Candle × ℤ :=
  if k.t ≤ acc.2 then acc else (acc.1 ++ [k], k.t)

/-- `func ensureAscUnique(xs []backtest.Candle, step int64) []backtest.Candle`
(main.go lines 1270-1289).  The `step` argument is unused by the body. -/
def ensureAscUnique (xs : List Candle) (step : ℤ) : List Candle :=
  let _ := step
  (xs.foldl ensureAscUniqueStep (([] : List Candle), (-1 : ℤ))).1

/-- `DDCircuitConfig` (main.go lines 97-101). -/
structure DDCircuitConfig where
  enable : Option Bool
  threshold : ℚ
  cooldownBars : ℤ
deriving DecidableEq

/-- `RiskConfig` (main.go lines 87-95). -/
structure RiskConfig where
  riskTarget : ℚ
  atrPeriod : ℤ
  atrStopK : ℚ
  atrTrailK : ℚ
  maxLeverage : ℚ
  maxAbsPosition : ℚ
  ddCircuit : DDCircuitConfig
deriving DecidableEq

/-- The `backtest.Config` literal constructed by `buildBacktestEngine`
(main.go lines 683-699): zero fee/slippage/min-step, `TradeOnNextBar`
true, and a logging `AfterFill` hook that returns `(0, 0)`. -/
def buildBacktestEngineConfig (initialCash : F) (riskMaxAbsPosition : ℚ) : Config :=
  { initialEquity := initialCash
    barMinutes := 15
    tradeOnNextBar := true
    useMaker := false
    takerFeeBps := F.fin 0
    makerFeeBps := F.fin 0
    slippageBps := F.fin 0
    minRebalanceStep := F.fin 0
    maxAbsPosition := F.fin (nonZeroOrFloat riskMaxAbsPosition 1)
    beforeFill := none
    afterFill := some (fun _ _ _ _ => (F.fin 0, F.fin 0)) }

/-! ## Risk adapter (risk_adapter.go), embedded over ℚ

The adapter's arithmetic never produces IEEE special values on the inputs
the claims quantify over, so it is embedded directly over the rationals.
`atrTracker` is referenced but not defined under `src/`; only its observable
`Value()` is needed here. -/

/-- Modelled from the spec: the `atrTracker` type is missing from `src/`
(only its callers and a test that sets `value`/`ready` directly are
present).  The spec describes ATR as an EMA of True Range over
`atr_period`; the adapter only consumes `Value()`, which reports the
smoothed value once the tracker is ready and 0 before. -/
structure ATRTracker where
  period : ℤ
  value : ℚ
  ready : Bool
deriving DecidableEq

/-- Modelled from the spec: `newATRTracker(period)` starts unready. -/
def newATRTracker (period : ℤ) : ATRTracker :=
  { period := period, value := 0, ready := false }

/-- Modelled from the spec: `Value()` of the ATR tracker. -/
def ATRTracker.valueFn (t : ATRTracker) : ℚ := if t.ready then t.value else 0

/-- `type riskState struct` (risk_adapter.go lines 214-222). -/
structure RiskState where
  atr : ATRTracker
  position : ℚ
  entryPrice : ℚ
  maxFavorable : ℚ
  lastClose : ℚ
  holding : ℤ
deriving DecidableEq

/-- `func (st *riskState) resetPosition()`. -/
def RiskState.resetPosition (st : RiskState) : RiskState :=
  { st with position := 0, entryPrice := 0, maxFavorable := 0 }

/-- `type DDWindow struct` (the Go field `End` is `endTs` here). -/
structure DDWindow where
  start : ℤ
  endTs : ℤ
deriving DecidableEq

/-- Action emitted by the risk adapter (`backtest.Action` restricted to the
fields the adapter sets, over ℚ). -/
structure ActionQ where
  instID : String
  typ : String
  reason : String
  size : ℚ
  price : ℚ
deriving DecidableEq

/-- `type RiskAdapter struct` (risk_adapter.go lines 9-24). -/
structure RiskAdapter where
  cfg : RiskConfig
  barMinutes : ℤ
  states : List (String × RiskState)
  equity : ℚ
  peakEquity : ℚ
  ddCooldown : ℤ
  ddScaler : ℚ
  stopCounts : List (String × ℤ)
  ddActive : Bool
  ddStart : ℤ
  ddEvents : List DDWindow
  lastTs : ℤ
deriving DecidableEq

/-- `func NewRiskAdapter(cfg RiskConfig, barMinutes int) *RiskAdapter`. -/
def NewRiskAdapter (cfg : RiskConfig) (barMinutes : ℤ) : RiskAdapter :=
  { cfg := cfg, barMinutes := barMinutes, states := [], equity := 1,
    peakEquity := 1, ddCooldown := 0, ddScaler := 1, stopCounts := [],
    ddActive := false, ddStart := 0, ddEvents := [], lastTs := 0 }

/-- `func (ra *RiskAdapter) ensureState(inst string) *riskState`. -/
def RiskAdapter.ensureState (ra : RiskAdapter) (inst : String) :
    RiskAdapter × RiskState :=
  match alookup ra.states inst with
  | some st => (ra, st)
  | none =>
      let st : RiskState :=
        { atr := newATRTracker (nonZeroOr ra.cfg.atrPeriod 14), position := 0,
          entryPrice := 0, maxFavorable := 0, lastClose := 0, holding := 0 }
      ({ ra with states := aset ra.states inst st }, st)

/-- `func (ra *RiskAdapter) bumpStop(reason string)`. -/
def RiskAdapter.bumpStop (ra : RiskAdapter) (reason : String) : RiskAdapter :=
  let reason := if reason = "" then "stop" else reason
  { ra with stopCounts := aset ra.stopCounts reason ((alookup ra.stopCounts reason).getD 0 + 1) }

/-- `func (ra *RiskAdapter) applyVolTarget(target, price float64, st *riskState) float64`. -/
def RiskAdapter.applyVolTarget (ra : RiskAdapter) (target price : ℚ)
    (st : RiskState) : ℚ :=
  let atr := st.atr.valueFn
  if atr ≤ 0 ∨ price ≤ 0 then target
  else
    let riskTarget := nonZeroOrFloat ra.cfg.riskTarget (6/10) * ra.ddScaler
    let perBarVol := atr / price
    if perBarVol ≤ 0 then target
    else
      let scale := riskTarget / max perBarVol (1/1000000)
      let scale := if ra.cfg.maxLeverage > 0 then min scale ra.cfg.maxLeverage else scale
      target * scale

/-- `func (ra *RiskAdapter) checkStops(inst string, price float64, st *riskState) *backtest.Action`
(risk_adapter.go lines 120-151): the initial ATR stop is tested before the
trailing stop; a hit bumps `stop_counts` and returns the close action. -/
def RiskAdapter.checkStops (ra : RiskAdapter) (inst : String) (price : ℚ)
    (st : RiskState) : RiskAdapter × Option ActionQ :=
  if st.position = 0 ∨ price ≤ 0 then (ra, none)
  else
    let atr := st.atr.valueFn
    if atr ≤ 0 ∨ st.entryPrice ≤ 0 then (ra, none)
    else
      let stopK := nonZeroOrFloat ra.cfg.atrStopK (5/2)
      let trailK := nonZeroOrFloat ra.cfg.atrTrailK 3
      let stopDist := stopK * atr
      if st.position > 0 ∧ price ≤ st.entryPrice - stopDist then
        (ra.bumpStop "atr_stop",
         some { instID := inst, typ := "close", reason := "atr_stop",
                size := |st.position|, price := price })
      else if st.position < 0 ∧ price ≥ st.entryPrice + stopDist then
        (ra.bumpStop "atr_stop",
         some { instID := inst, typ := "close", reason := "atr_stop",
                size := |st.position|, price := price })
      else
        let trailDist := trailK * atr
        if st.position > 0 ∧ st.maxFavorable > 0 ∧ price ≤ st.maxFavorable - trailDist then
          (ra.bumpStop "atr_trail",
           some { instID := inst, typ := "close", reason := "atr_trail",
                  size := |st.position|, price := price })
        else if st.position < 0 ∧ st.maxFavorable > 0 ∧ price ≥ st.maxFavorable + trailDist then
          (ra.bumpStop "atr_trail",
           some { instID := inst, typ := "close", reason := "atr_trail",
                  size := |st.position|, price := price })
        else (ra, none)

/-- `func (ra *RiskAdapter) Approve(inst string, current, target, price float64, holdingBars int)`
(risk_adapter.go lines 64-90). -/
def RiskAdapter.Approve (ra : RiskAdapter) (inst : String)
    (current target price : ℚ) (holdingBars : ℤ) :
    RiskAdapter × ℚ × List ActionQ :=
  let es := ra.ensureState inst
  let ra := es.1
  let st := { es.2 with holding := holdingBars }
  let ra := { ra with states := aset ra.states inst st }
  let cs := ra.checkStops inst price st
  match cs.2 with
  | some act =>
      let ra := cs.1
      let st := st.resetPosition
      ({ ra with states := aset ra.states inst st }, 0, [act])
  | none =>
      let ra := cs.1
      let scaled := ra.applyVolTarget target price st
      let maxAbs := nonZeroOrFloat ra.cfg.maxAbsPosition 1
      let scaled := clampQ scaled (-maxAbs) maxAbs
      let scaled := if ra.cfg.maxLeverage > 0 then
          clampQ scaled (-ra.cfg.maxLeverage) ra.cfg.maxLeverage
        else scaled
      let st := if current = 0 ∧ scaled ≠ 0 ∧ price > 0 then
          { st with entryPrice := price, maxFavorable := price }
        else st
      let st := if scaled = 0 then st.resetPosition else { st with position := scaled }
      ({ ra with states := aset ra.states inst st }, scaled, [])

/-- `func (ra *RiskAdapter) evaluateDrawdown(ts int64)`
(risk_adapter.go lines 153-174). -/
def RiskAdapter.evaluateDrawdown (ra : RiskAdapter) (ts : ℤ) : RiskAdapter :=
  let ra := if ra.peakEquity ≤ 0 then { ra with peakEquity := 1 } else ra
  let dd := (ra.peakEquity - ra.equity) / ra.peakEquity
  let ra := if boolValue ra.cfg.ddCircuit.enable true ∧ dd ≥ ra.cfg.ddCircuit.threshold ∧
      ra.ddCooldown = 0 then
      { ra with ddScaler := 1/2,
                ddCooldown := nonZeroOr ra.cfg.ddCircuit.cooldownBars 96,
                ddActive := true, ddStart := ts }
    else ra
  if ra.ddCooldown > 0 then
    let ra := { ra with ddCooldown := ra.ddCooldown - 1 }
    if ra.ddCooldown = 0 then
      let ra := { ra with ddScaler := 1 }
      if ra.ddActive then
        { ra with ddEvents := ra.ddEvents ++ [{ start := ra.ddStart, endTs := ts }],
                  ddActive := false }
      else ra
    else ra
  else ra

/-- The tail of `RiskAdapter.OnCandle` (risk_adapter.go lines 55-59): roll
the peak and evaluate the drawdown circuit.  The equity update from held
positions is scripted by the caller (the drawdown claims quantify over the
equity path, not over candles). -/
def ddStep (ra : RiskAdapter) (e : ℚ) (ts : ℤ) : RiskAdapter :=
  let ra := { ra with equity := e }
  let ra := if ra.equity > ra.peakEquity then { ra with peakEquity := ra.equity } else ra
  let ra := ra.evaluateDrawdown ts
  { ra with lastTs := ts }

/-- Iterated `ddStep` over a scripted equity path with bar timestamps. -/
def ddRun (ra : RiskAdapter) (bars : List (ℤ × ℚ)) : RiskAdapter :=
  bars.foldl (fun ra b => ddStep ra b.2 b.1) ra

/-- Trace of `ddRun`: the adapter state after each bar. -/
def ddTrace (ra : RiskAdapter) (bars : List (ℤ × ℚ)) : List RiskAdapter :=
  (bars.foldl (fun acc b => (ddStep acc.1 b.2 b.1, acc.2 ++ [ddStep acc.1 b.2 b.1])) (ra, [])).2

/-! # Theorems

## C4 — data loading keeps the FIRST row of each duplicated timestamp -/

theorem eau_first_kept (xs : List Candle) (acc : List Candle) (last : ℤ)
    (c : Candle) (hc : c ∈ (xs.foldl ensureAscUniqueStep (acc, last)).1) :
    c ∈ acc ∨ (last < c.t ∧ xs.find? (fun k => k.t = c.t) = some c) := by
  induction xs generalizing acc last with
  | nil => exact Or.inl hc
  | cons k rest ih =>
    simp only [List.foldl_cons] at hc
    by_cases h : k.t ≤ last
    · simp only [ensureAscUniqueStep, if_pos h] at hc
      rcases ih acc last hc with h1 | ⟨h2, h3⟩
      · exact Or.inl h1
      · refine Or.inr ⟨h2, ?_⟩
        rw [List.find?_cons_of_neg _ (by simp; omega)]
        exact h3
    · simp only [ensureAscUniqueStep, if_neg h] at hc
      rcases ih (acc ++ [k]) k.t hc with h1 | ⟨h2, h3⟩
      · rcases List.mem_append.mp h1 with h4 | h4
        · exact Or.inl h4
        · have hck : c = k := by simpa using h4
          subst hck
          exact Or.inr ⟨by omega, by rw [List.find?_cons_of_pos _ (by simp)]⟩
      · refine Or.inr ⟨by omega, ?_⟩
        rw [List.find?_cons_of_neg _ (by simp; omega)]
        exact h3

theorem eau_sorted (xs : List Candle) (acc : List Candle) (last : ℤ)
    (hchain : List.Chain' (fun a b => a.t < b.t) acc)
    (hbound : ∀ c ∈ acc, c.t ≤ last) :
    List.Chain' (fun a b => a.t < b.t) (xs.foldl ensureAscUniqueStep (acc, last)).1 ∧
      ∀ c ∈ (xs.foldl ensureAscUniqueStep (acc, last)).1,
        c.t ≤ (xs.foldl ensureAscUniqueStep (acc, last)).2 := by
  induction xs generalizing acc last with
  | nil => exact ⟨hchain, hbound⟩
  | cons k rest ih =>
    simp only [List.foldl_cons]
    by_cases h : k.t ≤ last
    · simp only [ensureAscUniqueStep, if_pos h]
      exact ih acc last hchain hbound
    · simp only [ensureAscUniqueStep, if_neg h]
      refine ih (acc ++ [k]) k.t ?_ ?_
      · rw [List.chain'_append]
        refine ⟨hchain, List.chain'_singleton k, ?_⟩
        intro x hx y hy
        have hxm : x ∈ acc := List.mem_of_mem_getLast? hx
        have : k = y := by simpa using hy
        subst this
        have := hbound x hxm
        omega
      · intro c hcm
        rcases List.mem_append.mp hcm with h4 | h4
        · have := hbound c h4
          omega
        · have : c = k := by simpa using h4
          subst this
          omega

/-- C4.  The claim says that after data loading the bar sequence is
strictly ascending in timestamp and that, for rows sharing an identical
timestamp, the LAST such row survives.  On the code the second half is
false: `ensureAscUnique` skips any row whose timestamp is `<=` the last
kept one, so the FIRST row of a duplicated timestamp is the one kept.
This theorem proves the amended statement: the output is strictly
ascending in `ts`, and every kept row is the FIRST row of the input
carrying its timestamp. -/
theorem C4_ensureAscUnique_ascending_first_kept (xs : List Candle) (step : ℤ) :
    List.Chain' (fun a b => a.t < b.t) (ensureAscUnique xs step) ∧
      ∀ c ∈ ensureAscUnique xs step, xs.find? (fun k => k.t = c.t) = some c := by
  constructor
  · exact (eau_sorted xs [] (-1) List.chain'_nil (by simp)).1
  · intro c hc
    rcases eau_first_kept xs [] (-1) c hc with h | ⟨_, h⟩
    · simp at h
    · exact h

/-- C4 witness: the amended theorem evaluated on a concrete duplicated
input. -/
theorem C4_witness :
    (⟨"X", 1, F.fin 1, F.fin 1, F.fin 1, F.fin 1, F.fin 0⟩ : Candle) ∈
        ensureAscUnique
          [⟨"X", 1, F.fin 1, F.fin 1, F.fin 1, F.fin 1, F.fin 0⟩,
           ⟨"X", 1, F.fin 2, F.fin 2, F.fin 2, F.fin 2, F.fin 0⟩] 60000 ∧
      ([⟨"X", 1, F.fin 1, F.fin 1, F.fin 1, F.fin 1, F.fin 0⟩,
        ⟨"X", 1, F.fin 2, F.fin 2, F.fin 2, F.fin 2, F.fin 0⟩] : List Candle).find?
          (fun k => k.t = (1 : ℤ)) =
        some ⟨"X", 1, F.fin 1, F.fin 1, F.fin 1, F.fin 1, F.fin 0⟩ := by
  refine ⟨by decide, ?_⟩
  exact (C4_ensureAscUnique_ascending_first_kept
    [⟨"X", 1, F.fin 1, F.fin 1, F.fin 1, F.fin 1, F.fin 0⟩,
     ⟨"X", 1, F.fin 2, F.fin 2, F.fin 2, F.fin 2, F.fin 0⟩] 60000).2
    ⟨"X", 1, F.fin 1, F.fin 1, F.fin 1, F.fin 1, F.fin 0⟩ (by decide)

/-- C4 counterexample: two rows share timestamp 1; the claim predicts the
second (last) row is kept, but `ensureAscUnique` keeps the first. -/
theorem C4_counterexample :
    ensureAscUnique
        [⟨"X", 1, F.fin 1, F.fin 1, F.fin 1, F.fin 1, F.fin 0⟩,
         ⟨"X", 1, F.fin 2, F.fin 2, F.fin 2, F.fin 2, F.fin 0⟩] 60000 =
      [⟨"X", 1, F.fin 1, F.fin 1, F.fin 1, F.fin 1, F.fin 0⟩] ∧
    (⟨"X", 1, F.fin 1, F.fin 1, F.fin 1, F.fin 1, F.fin 0⟩ : Candle) ≠
      ⟨"X", 1, F.fin 2, F.fin 2, F.fin 2, F.fin 2, F.fin 0⟩ := by
  decide

/-! ## C10 — zero config values are replaced by defaults; the engine built
by `buildBacktestEngine` charges 9 bps per unit turnover and skips moves
below 0.05 -/

theorem buildBacktestEngine_withDefaults (cash : F) (rmax : ℚ) :
    (buildBacktestEngineConfig cash rmax).withDefaults =
      { initialEquity := if cash = F.fin 0 then F.fin 1 else cash
        barMinutes := 15
        tradeOnNextBar := true
        takerFeeBps := F.fin 6
        makerFeeBps := F.fin 0
        slippageBps := F.fin 3
        useMaker := false
        minRebalanceStep := F.fin (5/100)
        maxAbsPosition := F.fin (nonZeroOrFloat rmax 1)
        beforeFill := none
        afterFill := some (fun _ _ _ _ => (F.fin 0, F.fin 0)) } := by
  have hmax : nonZeroOrFloat rmax 1 ≠ 0 := by
    unfold nonZeroOrFloat
    split_ifs with h
    · exact ne_of_gt h
    · norm_num
  by_cases h1 : cash = F.fin 0 <;>
    simp [Config.withDefaults, buildBacktestEngineConfig, h1, hmax]

/-- C10.  `Config.withDefaults` treats zero as unset (`TakerFeeBps 0 → 6`,
`SlippageBps 0 → 3`, `MinRebalanceStep 0 → 0.05`), so the engine built by
`buildBacktestEngine` — which passes zeros — (a) has those defaulted
values, (b) multiplies equity by `1 − turnover·9/10000` on every executed
fill (taker 6 + slippage 3; its `AfterFill` hook returns zero extra cost),
and (c) skips any rebalance with `|target − current| < 0.05`. -/
theorem C10_buildBacktestEngine_costs (cash : F) (rmax : ℚ) :
    ((buildBacktestEngineConfig cash rmax).withDefaults.takerFeeBps = F.fin 6 ∧
      (buildBacktestEngineConfig cash rmax).withDefaults.slippageBps = F.fin 3 ∧
      (buildBacktestEngineConfig cash rmax).withDefaults.minRebalanceStep = F.fin (5/100)) ∧
    (∀ (rlog : ℚ → ℚ) (states : List (String × InstState)) (inst : String)
        (target refPx : F) (ts : ℤ) (trades : List Trade) (eq : F) (s : InstState),
      alookup states inst = some s →
      flt (fabs (fsub target s.pos)) (F.fin (1/1000000000)) = false →
      (applyFill rlog (buildBacktestEngineConfig cash rmax).withDefaults
          (buildBacktestEngineConfig cash rmax).withDefaults.beforeFill
          (buildBacktestEngineConfig cash rmax).withDefaults.afterFill
          states inst target refPx ts trades eq).2.2 =
        fmul eq (fsub (F.fin 1)
          (fmul (fabs (fsub target s.pos)) (fdiv (F.fin 9) (F.fin 10000))))) ∧
    (∀ (ρ : Type) (risk : Option (RiskM ρ)) (ts : ℤ) (group : List Candle)
        (states : List (String × InstState)) (r : ρ) (inst : String) (tgt : F)
        (ss : InstState),
      alookup states inst = some ss →
      flt (fabs (fsub tgt ss.pos)) (F.fin (5/100)) = true →
      scheduleInst (buildBacktestEngineConfig cash rmax).withDefaults risk ts group
          (states, r) inst tgt = (states, r)) := by
  rw [buildBacktestEngine_withDefaults]
  refine ⟨⟨rfl, rfl, rfl⟩, ?_, ?_⟩
  · intro rlog states inst target refPx ts trades eq s hs hflt
    unfold applyFill
    rw [hs]
    simp only [hflt, Bool.false_eq_true, if_false]
    have h9 : fadd (F.fin 6) (F.fin 3) = F.fin 9 := by
      simp [fadd]
      norm_num
    simp [h9, fbeq]
  · intro ρ risk ts group states r inst tgt ss hs hflt
    simp [scheduleInst, hs, hflt]

/-- C10 witness: the cost equation and the skip rule applied at concrete
inputs. -/
theorem C10_witness :
    (applyFill (fun _ => 0) (buildBacktestEngineConfig (F.fin 1) 0).withDefaults
        (buildBacktestEngineConfig (F.fin 1) 0).withDefaults.beforeFill
        (buildBacktestEngineConfig (F.fin 1) 0).withDefaults.afterFill
        [("X", instState0)] "X" (F.fin 1) (F.fin 100) 0 [] (F.fin 1)).2.2 =
      fmul (F.fin 1) (fsub (F.fin 1)
        (fmul (fabs (fsub (F.fin 1) (F.fin 0))) (fdiv (F.fin 9) (F.fin 10000)))) ∧
    scheduleInst (buildBacktestEngineConfig (F.fin 1) 0).withDefaults
        (none : Option (RiskM Unit)) 0 [] ([("X", instState0)], ()) "X" (F.fin (1/100)) =
      ([("X", instState0)], ()) := by
  constructor
  · exact (C10_buildBacktestEngine_costs (F.fin 1) 0).2.1 (fun _ => 0)
      [("X", instState0)] "X" (F.fin 1) (F.fin 100) 0 [] (F.fin 1) instState0
      (by simp [alookup])
      (by norm_num [flt, fabs, fsub, fadd, fneg, instState0, abs_of_nonneg])
  · exact (C10_buildBacktestEngine_costs (F.fin 1) 0).2.2 Unit none 0 []
      [("X", instState0)] () "X" (F.fin (1/100)) instState0 (by simp [alookup])
      (by norm_num [flt, fabs, fsub, fadd, fneg, instState0, abs_of_nonneg])

/-! ## C6 — resolved per-instrument targets: side semantics only, meta
never consulted -/

/-- A signal with its meta removed (all other fields kept). -/
def stripMeta (s : Signal) : Signal := { s with meta := [] }

theorem resolveTargets_append (maxAbs : F) (sigs : List Signal) (s : Signal) :
    resolveTargets maxAbs (sigs ++ [s]) =
      aset (resolveTargets maxAbs sigs) s.instID (sideTargetVal maxAbs s) := by
  simp [resolveTargets, List.foldl_append]

theorem sideTargetVal_stripMeta (maxAbs : F) (s : Signal) :
    sideTargetVal maxAbs (stripMeta s) = sideTargetVal maxAbs s := rfl

/-- C6.  The claim says `meta.target`, when present, supersedes side and
size, and otherwise the target is `+|size|` / `−|size|` / `0` for
buy/sell/close.  On the code the kernel never reads `Signal.Meta` at all,
and a buy (resp. sell) maps to `math.Max(size, 0)` (resp. its negation),
not to `|size|`.  This theorem proves the amended statement: (1) the
resolved targets are invariant under erasing every signal's meta; (2) the
target for an instrument is the side-mapped, clamped value of the LAST
signal for that instrument; (3) `buy → clamp(max(size,0))`,
`sell → clamp(−max(size,0))`, and `close → 0` (for a nonnegative finite
position cap). -/
theorem C6_resolveTargets_side_semantics :
    (∀ (maxAbs : F) (sigs : List Signal),
      resolveTargets maxAbs (sigs.map stripMeta) = resolveTargets maxAbs sigs) ∧
    (∀ (maxAbs : F) (sigs : List Signal) (inst : String) (s : Signal),
      (sigs.filter (fun x => x.instID = inst)).getLast? = some s →
      alookup (resolveTargets maxAbs sigs) inst = some (sideTargetVal maxAbs s)) ∧
    (∀ (maxAbs : F) (s : Signal), s.side = "buy" →
      sideTargetVal maxAbs s = clamp (fmaxGo s.size (F.fin 0)) (fneg maxAbs) maxAbs) ∧
    (∀ (maxAbs : F) (s : Signal), s.side = "sell" →
      sideTargetVal maxAbs s = clamp (fneg (fmaxGo s.size (F.fin 0))) (fneg maxAbs) maxAbs) ∧
    (∀ (m : ℚ) (s : Signal), s.side = "close" → 0 ≤ m →
      sideTargetVal (F.fin m) s = F.fin 0) := by
  refine ⟨?_, ?_, ?_, ?_, ?_⟩
  · intro maxAbs sigs
    unfold resolveTargets
    rw [List.foldl_map]
    rfl
  · intro maxAbs sigs
    induction sigs using List.reverseRecOn with
    | nil => simp
    | append_singleton l x ih =>
      intro inst s hlast
      rw [List.filter_append] at hlast
      by_cases hx : x.instID = inst
      · rw [resolveTargets_append, hx]
        have hfil : (List.filter (fun y => decide (y.instID = inst)) [x]) = [x] := by
          simp [hx]
        rw [hfil, List.getLast?_append] at hlast
        have hxs : x = s := Option.some.inj hlast
        subst hxs
        exact alookup_aset_self _ _ _
      · rw [resolveTargets_append]
        rw [alookup_aset_ne _ _ _ _ hx]
        apply ih
        have hfil : (List.filter (fun y => decide (y.instID = inst)) [x]) = [] := by
          simp [hx]
        rw [hfil, List.getLast?_append] at hlast
        exact hlast
  · intro maxAbs s hside
    simp [sideTargetVal, hside]
  · intro maxAbs s hside
    simp [sideTargetVal, hside]
  · intro m s hside hm
    have h1 : ¬ (0:ℚ) < -m := by linarith
    have h2 : ¬ (m:ℚ) < 0 := by linarith
    simp [sideTargetVal, hside, clamp, h1, h2]

/-- C6 witness: the last-signal rule and side equations on concrete
signals. -/
theorem C6_witness :
    alookup (resolveTargets (F.fin 1)
        [{ instID := "X", side := "buy", size := F.fin (2/5), price := F.fin 0,
           tag := "", meta := [] }]) "X" =
      some (sideTargetVal (F.fin 1)
        { instID := "X", side := "buy", size := F.fin (2/5), price := F.fin 0,
          tag := "", meta := [] }) ∧
    sideTargetVal (F.fin 1)
        { instID := "Z", side := "close", size := F.fin (3/4), price := F.fin 0,
          tag := "", meta := [] } = F.fin 0 := by
  constructor
  · exact C6_resolveTargets_side_semantics.2.1 (F.fin 1) _ "X" _ (by simp)
  · exact C6_resolveTargets_side_semantics.2.2.2.2 1
      { instID := "Z", side := "close", size := F.fin (3/4), price := F.fin 0,
        tag := "", meta := [] } rfl (by norm_num)

/-- C6 counterexample: a buy signal of size 0.4 carrying
`meta.target = −0.2` resolves to 0.4, not to the claimed clamped meta
target −0.2; and a buy signal of negative size −0.5 resolves to 0 (the
code's `max(size, 0)`), not to the claimed `+|size| = 0.5`. -/
theorem C6_counterexample :
    alookup (resolveTargets (F.fin 1)
        [{ instID := "X", side := "buy", size := F.fin (2/5), price := F.fin 0,
           tag := "", meta := [("target", F.fin (-1/5))] }]) "X" =
      some (F.fin (2/5)) ∧
    F.fin (2/5) ≠ F.fin (-1/5) ∧
    alookup ([("target", F.fin (-1/5))] : List (String × F)) "target" =
      some (F.fin (-1/5)) ∧
    clamp (F.fin (-1/5)) (fneg (F.fin 1)) (F.fin 1) = F.fin (-1/5) ∧
    alookup (resolveTargets (F.fin 1)
        [{ instID := "Y", side := "buy", size := F.fin (-1/2), price := F.fin 0,
           tag := "", meta := [] }]) "Y" =
      some (F.fin 0) ∧
    F.fin 0 ≠ fabs (F.fin (-1/2)) := by
  refine ⟨?_, by norm_num, by simp [alookup], ?_, ?_, ?_⟩
  · norm_num [resolveTargets, sideTargetVal, clamp, alookup, aset]
  · norm_num [clamp]
  · norm_num [resolveTargets, sideTargetVal, clamp, alookup, aset]
  · norm_num [abs_of_nonneg]

/-! ## C8 — ATR stops in `RiskAdapter.Approve`: order, counting, reset,
returned action -/

/-- The observable behaviour the claim ascribes to a triggered stop:
`Approve` returns approved 0 with exactly the one close action, the
per-instrument state is reset, and `stop_counts[reason]` is incremented. -/
def approveStopObs (ra : RiskAdapter) (inst : String) (current target price : ℚ)
    (hb : ℤ) (st : RiskState) (reason : String) : Prop :=
  (RiskAdapter.Approve ra inst current target price hb).2.1 = 0 ∧
  (RiskAdapter.Approve ra inst current target price hb).2.2 =
    [{ instID := inst, typ := "close", reason := reason,
       size := |st.position|, price := price }] ∧
  alookup (RiskAdapter.Approve ra inst current target price hb).1.states inst =
    some ({ st with holding := hb }).resetPosition ∧
  alookup (RiskAdapter.Approve ra inst current target price hb).1.stopCounts reason =
    some ((alookup ra.stopCounts reason).getD 0 + 1)

theorem Approve_stop_fires (ra : RiskAdapter) (inst : String)
    (current target price : ℚ) (hb : ℤ) (st : RiskState)
    (hst : alookup ra.states inst = some st) (act : ActionQ) (raX : RiskAdapter)
    (hcs : RiskAdapter.checkStops
        { ra with states := aset ra.states inst { st with holding := hb } }
        inst price { st with holding := hb } = (raX, some act)) :
    RiskAdapter.Approve ra inst current target price hb =
      ({ raX with
          states := aset raX.states inst ({ st with holding := hb }).resetPosition },
       0, [act]) := by
  simp only [RiskAdapter.Approve, RiskAdapter.ensureState, hst, hcs]

theorem checkStops_guards_pass (ra : RiskAdapter) (inst : String) (price : ℚ)
    (st : RiskState) (hpos : st.position ≠ 0) (hprice : 0 < price)
    (hatr : 0 < st.atr.valueFn) (hentry : 0 < st.entryPrice) :
    RiskAdapter.checkStops ra inst price st =
      (let stopK := nonZeroOrFloat ra.cfg.atrStopK (5/2)
       let trailK := nonZeroOrFloat ra.cfg.atrTrailK 3
       let stopDist := stopK * st.atr.valueFn
       if st.position > 0 ∧ price ≤ st.entryPrice - stopDist then
         (ra.bumpStop "atr_stop",
          some { instID := inst, typ := "close", reason := "atr_stop",
                 size := |st.position|, price := price })
       else if st.position < 0 ∧ price ≥ st.entryPrice + stopDist then
         (ra.bumpStop "atr_stop",
          some { instID := inst, typ := "close", reason := "atr_stop",
                 size := |st.position|, price := price })
       else
         let trailDist := trailK * st.atr.valueFn
         if st.position > 0 ∧ st.maxFavorable > 0 ∧ price ≤ st.maxFavorable - trailDist then
           (ra.bumpStop "atr_trail",
            some { instID := inst, typ := "close", reason := "atr_trail",
                   size := |st.position|, price := price })
         else if st.position < 0 ∧ st.maxFavorable > 0 ∧ price ≥ st.maxFavorable + trailDist then
           (ra.bumpStop "atr_trail",
            some { instID := inst, typ := "close", reason := "atr_trail",
                   size := |st.position|, price := price })
         else (ra, none)) := by
  unfold RiskAdapter.checkStops
  rw [if_neg (by push_neg; exact ⟨hpos, hprice⟩)]
  rw [if_neg (by push_neg; exact ⟨hatr, hentry⟩)]

theorem bumpStop_lookup (ra : RiskAdapter) (reason : String) (h : reason ≠ "") :
    alookup (ra.bumpStop reason).stopCounts reason =
      some ((alookup ra.stopCounts reason).getD 0 + 1) := by
  simp only [RiskAdapter.bumpStop, if_neg h]
  exact alookup_aset_self _ _ _

/-- C8.  The claim asserts that `Approve`, on a held position with
positive price, ATR and entry, checks the initial ATR stop before the
trailing stop and, on a trigger, bumps `stop_counts[reason]`, resets the
per-instrument state and returns `(0, [close action])`.  On the code the
trailing stop additionally requires `max_favorable > 0` (a short position
with `max_favorable = 0` satisfies the claim's trailing inequality yet no
stop fires); this theorem proves the amended statement with that guard.
The initial stop is checked first: its conclusion holds whenever its own
inequality does, regardless of the trailing condition. -/
theorem C8_approve_stop_behavior (ra : RiskAdapter) (inst : String)
    (current target price : ℚ) (hb : ℤ) (st : RiskState)
    (hst : alookup ra.states inst = some st)
    (hpos : st.position ≠ 0) (hprice : 0 < price)
    (hatr : 0 < st.atr.valueFn) (hentry : 0 < st.entryPrice) :
    (0 < st.position →
      price ≤ st.entryPrice - nonZeroOrFloat ra.cfg.atrStopK (5/2) * st.atr.valueFn →
      approveStopObs ra inst current target price hb st "atr_stop") ∧
    (st.position < 0 →
      st.entryPrice + nonZeroOrFloat ra.cfg.atrStopK (5/2) * st.atr.valueFn ≤ price →
      approveStopObs ra inst current target price hb st "atr_stop") ∧
    (0 < st.position →
      ¬ price ≤ st.entryPrice - nonZeroOrFloat ra.cfg.atrStopK (5/2) * st.atr.valueFn →
      0 < st.maxFavorable →
      price ≤ st.maxFavorable - nonZeroOrFloat ra.cfg.atrTrailK 3 * st.atr.valueFn →
      approveStopObs ra inst current target price hb st "atr_trail") ∧
    (st.position < 0 →
      ¬ st.entryPrice + nonZeroOrFloat ra.cfg.atrStopK (5/2) * st.atr.valueFn ≤ price →
      0 < st.maxFavorable →
      st.maxFavorable + nonZeroOrFloat ra.cfg.atrTrailK 3 * st.atr.valueFn ≤ price →
      approveStopObs ra inst current target price hb st "atr_trail") := by
  set st' : RiskState := { st with holding := hb } with hst'
  have hpos' : st'.position ≠ 0 := hpos
  have hatr' : 0 < st'.atr.valueFn := hatr
  have hentry' : 0 < st'.entryPrice := hentry
  have hguards := checkStops_guards_pass
    { ra with states := aset ra.states inst st' } inst price st' hpos' hprice hatr' hentry'
  have hobs : ∀ (reason : String), reason ≠ "" →
      RiskAdapter.checkStops { ra with states := aset ra.states inst st' } inst price st' =
        ({ ra with states := aset ra.states inst st' }.bumpStop reason,
         some { instID := inst, typ := "close", reason := reason,
                size := |st'.position|, price := price }) →
      approveStopObs ra inst current target price hb st reason := by
    intro reason hre hcs
    have happ := Approve_stop_fires ra inst current target price hb st hst _ _ hcs
    refine ⟨by rw [happ], by rw [happ], ?_, ?_⟩
    · rw [happ]
      exact alookup_aset_self _ _ _
    · rw [happ]
      have : ({ ra with states := aset ra.states inst st' }.bumpStop reason).stopCounts =
          (({ ra with states := aset ra.states inst st' } : RiskAdapter).bumpStop reason).stopCounts := rfl
      exact bumpStop_lookup { ra with states := aset ra.states inst st' } reason hre
  refine ⟨?_, ?_, ?_, ?_⟩
  · intro h1 h2
    refine hobs "atr_stop" (by simp) ?_
    rw [hguards]
    simp only []
    rw [if_pos ⟨h1, h2⟩]
  · intro h1 h2
    refine hobs "atr_stop" (by simp) ?_
    rw [hguards]
    simp only []
    rw [if_neg (by push_neg; intro h; linarith), if_pos ⟨h1, h2⟩]
  · intro h1 h2 h3 h4
    refine hobs "atr_trail" (by simp) ?_
    rw [hguards]
    simp only []
    rw [if_neg (by push_neg; intro _; linarith), if_neg (by push_neg; intro h; linarith),
        if_pos ⟨h1, h3, h4⟩]
  · intro h1 h2 h3 h4
    refine hobs "atr_trail" (by simp) ?_
    rw [hguards]
    simp only []
    rw [if_neg (by push_neg; intro h; linarith), if_neg (by push_neg; intro _; linarith),
        if_neg (by push_neg; intro h; linarith), if_pos ⟨h1, h3, h4⟩]

/-- Risk configuration with every field zero (all defaults in force). -/
def c8cfg : RiskConfig :=
  { riskTarget := 0, atrPeriod := 0, atrStopK := 0, atrTrailK := 0,
    maxLeverage := 0, maxAbsPosition := 0,
    ddCircuit := { enable := none, threshold := 0, cooldownBars := 0 } }

/-- A held long state with a ready ATR of 2 at entry 100. -/
def c8wst : RiskState :=
  { atr := { period := 14, value := 2, ready := true }, position := 1,
    entryPrice := 100, maxFavorable := 100, lastClose := 0, holding := 0 }

/-- A held short state whose `max_favorable` is 0 (ATR 1, entry 100). -/
def c8xst : RiskState :=
  { atr := { period := 14, value := 1, ready := true }, position := -1,
    entryPrice := 100, maxFavorable := 0, lastClose := 0, holding := 0 }

/-- C8 witness: the long initial stop fires at price 90 with default
`stop_k = 2.5` and ATR 2 from entry 100. -/
theorem C8_witness :
    approveStopObs
      { cfg := c8cfg, barMinutes := 15, states := [("X", c8wst)], equity := 1,
        peakEquity := 1, ddCooldown := 0, ddScaler := 1, stopCounts := [],
        ddActive := false, ddStart := 0, ddEvents := [], lastTs := 0 }
      "X" 1 1 90 0 c8wst "atr_stop" := by
  refine (C8_approve_stop_behavior _ "X" 1 1 90 0 c8wst (by simp [alookup])
    (by norm_num [c8wst]) (by norm_num) (by norm_num [c8wst, ATRTracker.valueFn])
    (by norm_num [c8wst])).1 (by norm_num [c8wst]) ?_
  norm_num [c8wst, c8cfg, ATRTracker.valueFn, nonZeroOrFloat]

/-- C8 counterexample: a short position with `max_favorable = 0` satisfies
the claim's trailing-stop inequality (`price ≥ max_favorable + trail_k·atr`,
here `4 ≥ 0 + 3·1`), yet `Approve` fires no stop: it returns no action and
a nonzero vol-scaled approved target, because the code's trailing stop also
requires `max_favorable > 0`. -/
theorem C8_counterexample :
    (c8xst.position < 0 ∧
      c8xst.maxFavorable + nonZeroOrFloat c8cfg.atrTrailK 3 * c8xst.atr.valueFn ≤ 4) ∧
    (RiskAdapter.Approve
        { cfg := c8cfg, barMinutes := 15, states := [("X", c8xst)], equity := 1,
          peakEquity := 1, ddCooldown := 0, ddScaler := 1, stopCounts := [],
          ddActive := false, ddStart := 0, ddEvents := [], lastTs := 0 }
        "X" (-1) (-1) 4 0).2.2 = [] ∧
    (RiskAdapter.Approve
        { cfg := c8cfg, barMinutes := 15, states := [("X", c8xst)], equity := 1,
          peakEquity := 1, ddCooldown := 0, ddScaler := 1, stopCounts := [],
          ddActive := false, ddStart := 0, ddEvents := [], lastTs := 0 }
        "X" (-1) (-1) 4 0).2.1 = -1 := by
  refine ⟨⟨by norm_num [c8xst], by norm_num [c8xst, c8cfg, ATRTracker.valueFn, nonZeroOrFloat]⟩, ?_, ?_⟩ <;>
    norm_num [RiskAdapter.Approve, RiskAdapter.ensureState, RiskAdapter.checkStops,
      RiskAdapter.applyVolTarget, RiskAdapter.bumpStop, clampQ, nonZeroOrFloat,
      ATRTracker.valueFn, alookup, aset, c8xst, c8cfg, max_eq_left]

/-! ## C5 — drawdown circuit: trigger, cooldown countdown, window
recording -/

theorem ddStep_quiet (cfg : RiskConfig) (bm : ℤ) (s : List (String × RiskState))
    (q0 : ℚ) (sc0 : List (String × ℤ)) (ds lt ts : ℤ) (ev : List DDWindow)
    (e : ℚ) (he : e ≤ 1) (hdd : 1 - e < cfg.ddCircuit.threshold) :
    ddStep
      { cfg := cfg, barMinutes := bm, states := s, equity := q0, peakEquity := 1,
        ddCooldown := 0, ddScaler := 1, stopCounts := sc0, ddActive := false,
        ddStart := ds, ddEvents := ev, lastTs := lt } e ts =
      { cfg := cfg, barMinutes := bm, states := s, equity := e, peakEquity := 1,
        ddCooldown := 0, ddScaler := 1, stopCounts := sc0, ddActive := false,
        ddStart := ds, ddEvents := ev, lastTs := ts } := by
  have h1 : ¬ (1:ℚ) < e := by linarith
  have h2 : ¬ (1:ℚ) ≤ 0 := by norm_num
  have h3 : ¬ cfg.ddCircuit.threshold ≤ (1:ℚ) - e := by linarith
  simp [ddStep, RiskAdapter.evaluateDrawdown, h1, h2, h3]

theorem ddStep_trigger (cfg : RiskConfig) (bm : ℤ) (s : List (String × RiskState))
    (q0 : ℚ) (sc0 : List (String × ℤ)) (ds lt ts : ℤ) (ev : List DDWindow)
    (e : ℚ) (he : e ≤ 1)
    (henable : boolValue cfg.ddCircuit.enable true = true)
    (hdd : cfg.ddCircuit.threshold ≤ 1 - e)
    (c : ℤ) (hc : nonZeroOr cfg.ddCircuit.cooldownBars 96 = c) (hc2 : 2 ≤ c) :
    ddStep
      { cfg := cfg, barMinutes := bm, states := s, equity := q0, peakEquity := 1,
        ddCooldown := 0, ddScaler := 1, stopCounts := sc0, ddActive := false,
        ddStart := ds, ddEvents := ev, lastTs := lt } e ts =
      { cfg := cfg, barMinutes := bm, states := s, equity := e, peakEquity := 1,
        ddCooldown := c - 1, ddScaler := 1/2, stopCounts := sc0, ddActive := true,
        ddStart := ts, ddEvents := ev, lastTs := ts } := by
  have h1 : ¬ (1:ℚ) < e := by linarith
  have h2 : ¬ (1:ℚ) ≤ 0 := by norm_num
  have h3 : cfg.ddCircuit.threshold ≤ (1:ℚ) - e := hdd
  have h4 : (0:ℤ) < c := by omega
  have h5 : ¬ (c - 1 = 0) := by omega
  simp [ddStep, RiskAdapter.evaluateDrawdown, h1, h2, h3, henable, hc, h4, h5]

theorem ddStep_trigger_one (cfg : RiskConfig) (bm : ℤ) (s : List (String × RiskState))
    (q0 : ℚ) (sc0 : List (String × ℤ)) (ds lt ts : ℤ) (ev : List DDWindow)
    (e : ℚ) (he : e ≤ 1)
    (henable : boolValue cfg.ddCircuit.enable true = true)
    (hdd : cfg.ddCircuit.threshold ≤ 1 - e)
    (hc : nonZeroOr cfg.ddCircuit.cooldownBars 96 = 1) :
    ddStep
      { cfg := cfg, barMinutes := bm, states := s, equity := q0, peakEquity := 1,
        ddCooldown := 0, ddScaler := 1, stopCounts := sc0, ddActive := false,
        ddStart := ds, ddEvents := ev, lastTs := lt } e ts =
      { cfg := cfg, barMinutes := bm, states := s, equity := e, peakEquity := 1,
        ddCooldown := 0, ddScaler := 1, stopCounts := sc0, ddActive := false,
        ddStart := ts, ddEvents := ev ++ [{ start := ts, endTs := ts }],
        lastTs := ts } := by
  have h1 : ¬ (1:ℚ) < e := by linarith
  have h2 : ¬ (1:ℚ) ≤ 0 := by norm_num
  have h3 : cfg.ddCircuit.threshold ≤ (1:ℚ) - e := hdd
  simp [ddStep, RiskAdapter.evaluateDrawdown, h1, h2, h3, henable, hc]

theorem ddStep_cooldown (cfg : RiskConfig) (bm : ℤ) (s : List (String × RiskState))
    (q0 sc : ℚ) (sc0 : List (String × ℤ)) (ds lt ts : ℤ) (ev : List DDWindow)
    (e : ℚ) (he : e ≤ 1) (cd : ℤ) (hcd : 2 ≤ cd) :
    ddStep
      { cfg := cfg, barMinutes := bm, states := s, equity := q0, peakEquity := 1,
        ddCooldown := cd, ddScaler := sc, stopCounts := sc0, ddActive := true,
        ddStart := ds, ddEvents := ev, lastTs := lt } e ts =
      { cfg := cfg, barMinutes := bm, states := s, equity := e, peakEquity := 1,
        ddCooldown := cd - 1, ddScaler := sc, stopCounts := sc0, ddActive := true,
        ddStart := ds, ddEvents := ev, lastTs := ts } := by
  have h1 : ¬ (1:ℚ) < e := by linarith
  have h2 : ¬ (1:ℚ) ≤ 0 := by norm_num
  have h4 : ¬ (cd = 0) := by omega
  have h5 : (0:ℤ) < cd := by omega
  have h6 : ¬ (cd - 1 = 0) := by omega
  simp [ddStep, RiskAdapter.evaluateDrawdown, h1, h2, h4, h5, h6]

theorem ddStep_cooldown_expire (cfg : RiskConfig) (bm : ℤ)
    (s : List (String × RiskState)) (q0 sc : ℚ) (sc0 : List (String × ℤ))
    (ds lt ts : ℤ) (ev : List DDWindow) (e : ℚ) (he : e ≤ 1) :
    ddStep
      { cfg := cfg, barMinutes := bm, states := s, equity := q0, peakEquity := 1,
        ddCooldown := 1, ddScaler := sc, stopCounts := sc0, ddActive := true,
        ddStart := ds, ddEvents := ev, lastTs := lt } e ts =
      { cfg := cfg, barMinutes := bm, states := s, equity := e, peakEquity := 1,
        ddCooldown := 0, ddScaler := 1, stopCounts := sc0, ddActive := false,
        ddStart := ds, ddEvents := ev ++ [{ start := ds, endTs := ts }],
        lastTs := ts } := by
  have h1 : ¬ (1:ℚ) < e := by linarith
  have h2 : ¬ (1:ℚ) ≤ 0 := by norm_num
  have h4 : ¬ ((1:ℤ) = 0) := by omega
  simp [ddStep, RiskAdapter.evaluateDrawdown, h1, h2, h4]

/-- Scripted equity value seen by the adapter after `i` bars (1 before the
first bar). -/
def ddEqAt (e : ℕ → ℚ) : ℕ → ℚ
  | 0 => 1
  | j + 1 => e j

/-- `lastTs` after `i` bars with unit-spaced timestamps `0, 1, ...`. -/
def ddLtAt : ℕ → ℤ
  | 0 => 0
  | j + 1 => (j : ℤ)

/-- Predicted adapter state after `i` bars in the single-crossing scenario:
quiet until the trigger bar `T`, cooling down through bar `T + cb' - 1`,
and holding the single recorded window afterwards. -/
def ddStateAt (cfg : RiskConfig) (bm : ℤ) (e : ℕ → ℚ) (T cb' : ℕ) (i : ℕ) :
    RiskAdapter :=
  if T < i ∧ i < T + cb' then
    { cfg := cfg, barMinutes := bm, states := [], equity := ddEqAt e i,
      peakEquity := 1, ddCooldown := (T : ℤ) + (cb' : ℤ) - (i : ℤ), ddScaler := 1/2,
      stopCounts := [], ddActive := true, ddStart := (T : ℤ), ddEvents := [],
      lastTs := ddLtAt i }
  else if T + cb' ≤ i then
    { cfg := cfg, barMinutes := bm, states := [], equity := ddEqAt e i,
      peakEquity := 1, ddCooldown := 0, ddScaler := 1, stopCounts := [],
      ddActive := false, ddStart := (T : ℤ),
      ddEvents := [{ start := (T : ℤ), endTs := (T : ℤ) + (cb' : ℤ) - 1 }],
      lastTs := ddLtAt i }
  else
    { cfg := cfg, barMinutes := bm, states := [], equity := ddEqAt e i,
      peakEquity := 1, ddCooldown := 0, ddScaler := 1, stopCounts := [],
      ddActive := false, ddStart := 0, ddEvents := [], lastTs := ddLtAt i }

theorem ddRun_append_one (ra : RiskAdapter) (l : List (ℤ × ℚ)) (b : ℤ × ℚ) :
    ddRun ra (l ++ [b]) = ddStep (ddRun ra l) b.2 b.1 := by
  simp [ddRun, List.foldl_append]

theorem ddRun_closed_form (cfg : RiskConfig) (bm : ℤ) (e : ℕ → ℚ) (T cb' n : ℕ)
    (henable : boolValue cfg.ddCircuit.enable true = true)
    (hcb : nonZeroOr cfg.ddCircuit.cooldownBars 96 = (cb' : ℤ))
    (hcb1 : 1 ≤ cb')
    (he1 : ∀ i, i < n → e i ≤ 1)
    (hpre : ∀ i, i < T → 1 - e i < cfg.ddCircuit.threshold)
    (htrig : cfg.ddCircuit.threshold ≤ 1 - e T)
    (hpost : ∀ i, T + cb' ≤ i → i < n → 1 - e i < cfg.ddCircuit.threshold)
    (hT : T < n) :
    ∀ i, i ≤ n →
      ddRun (NewRiskAdapter cfg bm) ((List.range i).map fun (j : ℕ) => ((j : ℤ), e j)) =
        ddStateAt cfg bm e T cb' i := by
  intro i
  induction i with
  | zero =>
    intro _
    have hc1 : ¬ (T < 0 ∧ 0 < T + cb') := by omega
    have hc2 : ¬ (T + cb' ≤ 0) := by omega
    simp [ddRun, NewRiskAdapter, ddStateAt, hc1, hc2, ddEqAt, ddLtAt]
  | succ i ih =>
    intro hn'
    have hie : e i ≤ 1 := he1 i (by omega)
    rw [List.range_succ, List.map_append, List.map_cons, List.map_nil,
      ddRun_append_one, ih (by omega)]
    by_cases h1 : i < T
    · -- before the trigger
      have hc1 : ¬ (T < i ∧ i < T + cb') := by omega
      have hc2 : ¬ (T + cb' ≤ i) := by omega
      have hc3 : ¬ (T < i + 1 ∧ i + 1 < T + cb') := by omega
      have hc4 : ¬ (T + cb' ≤ i + 1) := by omega
      rw [ddStateAt, if_neg hc1, if_neg hc2,
        ddStep_quiet cfg bm [] (ddEqAt e i) [] 0 (ddLtAt i) (i : ℤ) [] (e i) hie
          (hpre i h1),
        ddStateAt, if_neg hc3, if_neg hc4]
      rfl
    · by_cases h2 : i = T
      · subst h2
        by_cases hcb2 : cb' = 1
        · -- trigger with cooldown 1: immediate expiry
          have hc1 : ¬ (i < i ∧ i < i + cb') := by omega
          have hc2 : ¬ (i + cb' ≤ i) := by omega
          have hc3 : ¬ (i < i + 1 ∧ i + 1 < i + cb') := by omega
          have hc4 : i + cb' ≤ i + 1 := by omega
          rw [ddStateAt, if_neg hc1, if_neg hc2,
            ddStep_trigger_one cfg bm [] (ddEqAt e i) [] 0 (ddLtAt i) (i : ℤ) []
              (e i) hie henable htrig (by rw [hcb, hcb2]; norm_num),
            ddStateAt, if_neg hc3, if_pos hc4]
          simp only [RiskAdapter.mk.injEq, ddEqAt, ddLtAt, List.nil_append,
            DDWindow.mk.injEq, List.cons.injEq, and_true, true_and]
          push_cast
          omega
        · -- trigger with cooldown at least 2
          have hc1 : ¬ (i < i ∧ i < i + cb') := by omega
          have hc2 : ¬ (i + cb' ≤ i) := by omega
          have hc3 : i < i + 1 ∧ i + 1 < i + cb' := by omega
          rw [ddStateAt, if_neg hc1, if_neg hc2,
            ddStep_trigger cfg bm [] (ddEqAt e i) [] 0 (ddLtAt i) (i : ℤ) []
              (e i) hie henable htrig ((cb' : ℤ)) hcb (by omega),
            ddStateAt, if_pos hc3]
          simp only [RiskAdapter.mk.injEq, ddEqAt, ddLtAt, and_true, true_and]
          push_cast
          omega
      · -- after the trigger
        have h1' : T < i := by omega
        by_cases h3 : i + 1 < T + cb'
        · -- mid cooldown
          have hc1 : T < i ∧ i < T + cb' := by omega
          have hc3 : T < i + 1 ∧ i + 1 < T + cb' := by omega
          rw [ddStateAt, if_pos hc1,
            ddStep_cooldown cfg bm [] (ddEqAt e i) (1/2) [] ((T : ℤ)) (ddLtAt i)
              (i : ℤ) [] (e i) hie ((T : ℤ) + (cb' : ℤ) - (i : ℤ)) (by push_cast; omega),
            ddStateAt, if_pos hc3]
          simp only [RiskAdapter.mk.injEq, ddEqAt, ddLtAt, and_true, true_and]
          push_cast
          omega
        · by_cases h4 : i + 1 = T + cb'
          · -- cooldown expiry: the window is pushed
            have hc1 : T < i ∧ i < T + cb' := by omega
            have hc3 : ¬ (T < i + 1 ∧ i + 1 < T + cb') := by omega
            have hc4 : T + cb' ≤ i + 1 := by omega
            have hcd1 : (T : ℤ) + (cb' : ℤ) - (i : ℤ) = 1 := by push_cast; omega
            rw [ddStateAt, if_pos hc1, hcd1,
              ddStep_cooldown_expire cfg bm [] (ddEqAt e i) (1/2) [] ((T : ℤ))
                (ddLtAt i) (i : ℤ) [] (e i) hie,
              ddStateAt, if_neg hc3, if_pos hc4]
            simp only [RiskAdapter.mk.injEq, ddEqAt, ddLtAt, List.nil_append,
              DDWindow.mk.injEq, List.cons.injEq, and_true, true_and]
            push_cast
            omega
          · -- after the cooldown: quiet again
            have hc2 : T + cb' ≤ i := by omega
            have hc1 : ¬ (T < i ∧ i < T + cb') := by omega
            have hc3 : ¬ (T < i + 1 ∧ i + 1 < T + cb') := by omega
            have hc4 : T + cb' ≤ i + 1 := by omega
            rw [ddStateAt, if_neg hc1, if_pos hc2,
              ddStep_quiet cfg bm [] (ddEqAt e i) [] ((T : ℤ)) (ddLtAt i) (i : ℤ)
                [{ start := (T : ℤ), endTs := (T : ℤ) + (cb' : ℤ) - 1 }] (e i) hie
                (hpost i hc2 (by omega)),
              ddStateAt, if_neg hc3, if_pos hc4]
            rfl

/-- C5.  The claim asserts that when the drawdown first crosses the
threshold at bar `T` (with the cooldown counter at 0), `dd_scaler` becomes
0.5 during the cooldown and 1.0 after, and exactly one DD window is
recorded with `start ≤ T` and `end = T + cooldown_bars`.  On the code the
bar that triggers the circuit also decrements the freshly set counter, so
the window closes — and the scaler returns to 1.0 — at bar
`T + cooldown_bars − 1`, not `T + cooldown_bars`.  This theorem proves the
amended statement on unit-spaced bars `0..n-1` with scripted equity `e`
(peak stays at 1): exactly one window `{start = T, end = T + cb − 1}` is
recorded, the scaler is 0.5 after bars `T .. T + cb − 2` and 1.0 after
bars `T + cb − 1 .. n − 1`. -/
theorem C5_dd_circuit (cfg : RiskConfig) (bm : ℤ) (e : ℕ → ℚ) (T cb' n : ℕ)
    (henable : boolValue cfg.ddCircuit.enable true = true)
    (hcb : nonZeroOr cfg.ddCircuit.cooldownBars 96 = (cb' : ℤ))
    (hcb1 : 1 ≤ cb')
    (he1 : ∀ i, i < n → e i ≤ 1)
    (hpre : ∀ i, i < T → 1 - e i < cfg.ddCircuit.threshold)
    (htrig : cfg.ddCircuit.threshold ≤ 1 - e T)
    (hpost : ∀ i, T + cb' ≤ i → i < n → 1 - e i < cfg.ddCircuit.threshold)
    (hT : T < n) (hn : T + cb' ≤ n) :
    (ddRun (NewRiskAdapter cfg bm)
        ((List.range n).map fun (j : ℕ) => ((j : ℤ), e j))).ddEvents =
      [{ start := (T : ℤ), endTs := (T : ℤ) + (cb' : ℤ) - 1 }] ∧
    (∀ i, T ≤ i → i + 1 < T + cb' →
      (ddRun (NewRiskAdapter cfg bm)
          ((List.range (i + 1)).map fun (j : ℕ) => ((j : ℤ), e j))).ddScaler = 1/2) ∧
    (∀ i, T + cb' ≤ i + 1 → i < n →
      (ddRun (NewRiskAdapter cfg bm)
          ((List.range (i + 1)).map fun (j : ℕ) => ((j : ℤ), e j))).ddScaler = 1) := by
  have hcf := ddRun_closed_form cfg bm e T cb' n henable hcb hcb1 he1 hpre htrig hpost hT
  refine ⟨?_, ?_, ?_⟩
  · rw [hcf n le_rfl]
    have hc1 : ¬ (T < n ∧ n < T + cb') := by omega
    rw [ddStateAt, if_neg hc1, if_pos hn]
  · intro i hi1 hi2
    rw [hcf (i + 1) (by omega)]
    have hc1 : T < i + 1 ∧ i + 1 < T + cb' := by omega
    rw [ddStateAt, if_pos hc1]
  · intro i hi1 hi2
    rw [hcf (i + 1) (by omega)]
    have hc1 : ¬ (T < i + 1 ∧ i + 1 < T + cb') := by omega
    rw [ddStateAt, if_neg hc1, if_pos (by omega)]

/-- Configuration for the C5 scenario: circuit enabled, threshold 0.15,
cooldown 3 bars. -/
def c5cfg : RiskConfig :=
  { riskTarget := 0, atrPeriod := 0, atrStopK := 0, atrTrailK := 0,
    maxLeverage := 0, maxAbsPosition := 0,
    ddCircuit := { enable := some true, threshold := 15/100, cooldownBars := 3 } }

/-- Scripted equity for the C5 witness: drawdown 0.2 first at bar 2,
recovered by bar 5. -/
def c5e (i : ℕ) : ℚ := if i < 2 then 1 else if i < 5 then 4/5 else 1

/-- C5 witness: the amended theorem on the concrete scenario (trigger at
bar 2, cooldown 3): exactly one window `{2, 4}`, scaler 0.5 after bar 3,
scaler 1 after bar 4. -/
theorem C5_witness :
    (ddRun (NewRiskAdapter c5cfg 15)
        ((List.range 6).map fun (j : ℕ) => ((j : ℤ), c5e j))).ddEvents =
      [{ start := (2 : ℤ), endTs := (4 : ℤ) }] ∧
    (ddRun (NewRiskAdapter c5cfg 15)
        ((List.range 4).map fun (j : ℕ) => ((j : ℤ), c5e j))).ddScaler = 1/2 ∧
    (ddRun (NewRiskAdapter c5cfg 15)
        ((List.range 5).map fun (j : ℕ) => ((j : ℤ), c5e j))).ddScaler = 1 := by
  have h := C5_dd_circuit c5cfg 15 c5e 2 3 6
    (by norm_num [c5cfg, boolValue])
    (by norm_num [c5cfg, nonZeroOr])
    (by norm_num)
    (by
      intro i hi
      interval_cases i <;> norm_num [c5e])
    (by
      intro i hi
      interval_cases i <;> norm_num [c5e, c5cfg])
    (by norm_num [c5e, c5cfg])
    (by
      intro i hi1 hi2
      interval_cases i <;> norm_num [c5e, c5cfg])
    (by norm_num) (by norm_num)
  refine ⟨?_, ?_, ?_⟩
  · have := h.1
    norm_num at this
    norm_num [this]
  · exact h.2.1 3 (by norm_num) (by norm_num)
  · exact h.2.2 4 (by norm_num) (by norm_num)

/-- C5 counterexample: threshold 0.15, cooldown 2, drawdown 0.2 at bar 0.
The recorded window is `{start 0, end 1}`: its end is
`T + cooldown_bars − 1 = 1`, not the claimed `T + cooldown_bars = 2`. -/
theorem C5_counterexample :
    (ddRun (NewRiskAdapter
        { riskTarget := 0, atrPeriod := 0, atrStopK := 0, atrTrailK := 0,
          maxLeverage := 0, maxAbsPosition := 0,
          ddCircuit := { enable := some true, threshold := 15/100,
                         cooldownBars := 2 } } 15)
        [((0 : ℤ), (8/10 : ℚ)), ((1 : ℤ), (85/100 : ℚ))]).ddEvents =
      [{ start := (0 : ℤ), endTs := (1 : ℤ) }] ∧
    (1 : ℤ) ≠ 0 + 2 := by
  constructor
  · norm_num [ddRun, ddStep, RiskAdapter.evaluateDrawdown, NewRiskAdapter,
      boolValue, nonZeroOr]
  · omega

/-! ## C9 — one pending per instrument; an existing pending blocks newly
approved targets, and close/halt actions replace it with target 0 -/

/-- C9, part 1 (theorem `C9_pending_discard` below bundles the claim):
with no risk module, an instrument whose pending is still unapplied is
left fully untouched by the scheduling step — the newly approved target is
silently dropped. -/
theorem scheduleInst_pending_blocks {ρ : Type} (cfg : Config) (ts : ℤ)
    (group : List Candle) (states : List (String × InstState)) (r : ρ)
    (inst : String) (tgt : F) (ss : InstState) (p : Pending)
    (hss : alookup states inst = some ss)
    (hpend : ss.pendingTarget = some p) :
    scheduleInst cfg (none : Option (RiskM ρ)) ts group (states, r) inst tgt =
      (states, r) := by
  simp only [scheduleInst, hss, Option.getD_some, Option.isNone_some,
    Bool.false_eq_true, if_false]
  split
  · rfl
  · simp only [List.any_nil, Bool.false_eq_true, if_false, hpend]
    have hupd : ({ ss with pendingTarget := some p } : InstState) = ss := by
      rw [← hpend]
    rw [hupd, aset_lookup_self states inst ss hss]

/-- C9, part 2: a risk close/halt action replaces the pending (existing or
not) with target 0 applying at `decideApplyTs ts`. -/
theorem scheduleInst_close_halt_overrides {ρ : Type} (cfg : Config)
    (rm : RiskM ρ) (ts : ℤ) (group : List Candle)
    (states : List (String × InstState)) (r : ρ) (inst : String) (tgt : F)
    (ss : InstState) (ref : F)
    (hss : alookup states inst = some ss)
    (hskip : flt (fabs (fsub tgt ss.pos)) cfg.minRebalanceStep = false)
    (href : ref = (if fbeq ss.lastClose (F.fin 0) then
        (match findInGroup group inst with
         | some k => k.c
         | none => ss.lastClose)
      else ss.lastClose))
    (hacts : ((rm.approve r inst ss.pos tgt ref ss.holding).2.2).any
        (fun a => a.typ = "close" || a.typ = "halt") = true) :
    scheduleInst cfg (some rm) ts group (states, r) inst tgt =
      (aset states inst
        { ss with
            pendingTarget := some ⟨F.fin 0,
              decideApplyTs ts cfg.tradeOnNextBar cfg.barMinutes⟩ },
       (rm.approve r inst ss.pos tgt ref ss.holding).1) := by
  simp only [scheduleInst, hss, Option.getD_some, Option.isNone_some,
    Bool.false_eq_true, if_false, hskip, ← href, hacts, if_true]

/-- The all-zero map for the abstracted transcendental parts. -/
def qzero : ℚ → ℚ := fun _ => 0

/-- Configuration for the C9 scenario: next-bar fills on 5-minute bars,
1 bp fee + 1 bp slippage, 0.01 min step (no zero field is defaulted except
the unused maker fee). -/
def c9cfg : Config :=
  { initialEquity := F.fin 1, barMinutes := 5, tradeOnNextBar := true,
    takerFeeBps := F.fin 1, makerFeeBps := F.fin 0, slippageBps := F.fin 1,
    useMaker := false, minRebalanceStep := F.fin (1/100),
    maxAbsPosition := F.fin 1, beforeFill := none, afterFill := none }

/-- Strategy for the C9 scenario: buy 1 on the first bar, buy 0.5 on the
second bar (one bar after the first, still before the first fill applies),
nothing afterwards. -/
def c9strat : StrategyM ℕ :=
  { name := "s",
    onCandle := fun n k =>
      (n + 1,
        if n = 0 then
          [{ instID := "X", side := "buy", size := F.fin 1, price := k.c,
             tag := "", meta := [] }]
        else if n = 1 then
          [{ instID := "X", side := "buy", size := F.fin (1/2), price := k.c,
             tag := "", meta := [] }]
        else []) }

/-- A constant-price candle for instrument `X`. -/
def c9bar (ts : ℤ) : Candle :=
  { instID := "X", t := ts, o := F.fin 100, h := F.fin 100, l := F.fin 100,
    c := F.fin 100, v := F.fin 0 }

/-- Three 5-minute bars for the C9 scenario. -/
def c9series : List (String × List Candle) :=
  [("X", [c9bar 0, c9bar 300000, c9bar 600000])]

/-- C9.  The kernel keeps at most one pending per instrument
(`pendingTarget` is a single optional field).  (1) While a pending is
unapplied, a newly approved target for that instrument is silently
discarded — the scheduling step leaves the instrument untouched; (2) a
risk close/halt action instead replaces the pending with target 0; (3) in
the concrete next-bar scenario (buy 1 at ts 0 scheduled for ts 300000, buy
0.5 arriving at ts 300000 before pendings are applied), the run executes
exactly the first fill: no trade closes and the final equity shows exactly
one unit of turnover at 2 bps (`1 − 2/10000`), the second signal producing
no fill. -/
theorem C9_pending_discard :
    (∀ (ρ : Type) (cfg : Config) (ts : ℤ) (group : List Candle)
        (states : List (String × InstState)) (r : ρ) (inst : String) (tgt : F)
        (ss : InstState) (p : Pending),
      alookup states inst = some ss → ss.pendingTarget = some p →
      scheduleInst cfg (none : Option (RiskM ρ)) ts group (states, r) inst tgt =
        (states, r)) ∧
    (∀ (ρ : Type) (cfg : Config) (rm : RiskM ρ) (ts : ℤ) (group : List Candle)
        (states : List (String × InstState)) (r : ρ) (inst : String) (tgt : F)
        (ss : InstState) (ref : F),
      alookup states inst = some ss →
      flt (fabs (fsub tgt ss.pos)) cfg.minRebalanceStep = false →
      ref = (if fbeq ss.lastClose (F.fin 0) then
          (match findInGroup group inst with
           | some k => k.c
           | none => ss.lastClose)
        else ss.lastClose) →
      ((rm.approve r inst ss.pos tgt ref ss.holding).2.2).any
          (fun a => a.typ = "close" || a.typ = "halt") = true →
      scheduleInst cfg (some rm) ts group (states, r) inst tgt =
        (aset states inst
          { ss with
              pendingTarget := some ⟨F.fin 0,
                decideApplyTs ts cfg.tradeOnNextBar cfg.barMinutes⟩ },
         (rm.approve r inst ss.pos tgt ref ss.holding).1)) ∧
    ((run qzero qzero id c9cfg c9strat (none : Option (RiskM Unit))
        (none : Option (PortfolioM Unit)) 0 () () c9series).trades = [] ∧
      (run qzero qzero id c9cfg c9strat (none : Option (RiskM Unit))
        (none : Option (PortfolioM Unit)) 0 () () c9series).finalEquity =
        F.fin (4999/5000)) := by
  refine ⟨?_, ?_, ?_⟩
  · intro ρ cfg ts group states r inst tgt ss p h1 h2
    exact scheduleInst_pending_blocks cfg ts group states r inst tgt ss p h1 h2
  · intro ρ cfg rm ts group states r inst tgt ss ref h1 h2 h3 h4
    exact scheduleInst_close_halt_overrides cfg rm ts group states r inst tgt ss
      ref h1 h2 h3 h4
  · constructor <;>
      · norm_num [run, Config.withDefaults, c9cfg, c9strat, c9series, c9bar, qzero,
          flatten, stableSort, sInsert, candLess, groupsByTs, groupStep,
          groupSumRet, resolveTargets, sideTargetVal, scheduleTargets, scheduleInst,
          applyPendings, applyFill, rollStates, findInGroup, decideApplyTs,
          nextBarTs, refPriceForFill, alookup, aset, instState0, clamp, sign,
          sideOf, dirName, flog, fexp, fdiv, max_def, abs_of_nonneg, abs_of_nonpos]
        rw [if_neg (List.cons_ne_nil _ _)]

/-- C9 witness: a pending scheduled at ts 0 for ts 300000 blocks the
target approved at ts 300000. -/
theorem C9_witness :
    scheduleInst c9cfg (none : Option (RiskM Unit)) 300000 []
        ([("X", { instState0 with pendingTarget := some ⟨F.fin 1, 300000⟩ })], ())
        "X" (F.fin (1/2)) =
      ([("X", { instState0 with pendingTarget := some ⟨F.fin 1, 300000⟩ })], ()) :=
  C9_pending_discard.1 Unit c9cfg 300000 [] _ () "X" (F.fin (1/2))
    { instState0 with pendingTarget := some ⟨F.fin 1, 300000⟩ }
    ⟨F.fin 1, 300000⟩ (by simp [alookup]) rfl

/-! ## C3 — the kernel's Trade records carry no meta-derived fields -/

theorem resolveTargets_stripMeta (maxAbs : F) (sigs : List Signal) :
    resolveTargets maxAbs (sigs.map stripMeta) = resolveTargets maxAbs sigs := by
  unfold resolveTargets
  rw [List.foldl_map]
  rfl

theorem resolveTargets_congr (maxAbs : F) (sigs₁ sigs₂ : List Signal)
    (h : sigs₁.map stripMeta = sigs₂.map stripMeta) :
    resolveTargets maxAbs sigs₁ = resolveTargets maxAbs sigs₂ := by
  rw [← resolveTargets_stripMeta maxAbs sigs₁, h, resolveTargets_stripMeta]

theorem portfolioTargets_congr {π : Type} (pm : PortfolioM π) (name : String)
    (maxAbs : F) (group : List Candle) (sigs₁ sigs₂ : List Signal) (p : π)
    (h : sigs₁.map stripMeta = sigs₂.map stripMeta) :
    portfolioTargets pm name maxAbs group sigs₁ p =
      portfolioTargets pm name maxAbs group sigs₂ p := by
  unfold portfolioTargets
  have hwant : ∀ (w : List (String × F)),
      sigs₁.foldl (fun w s => aset w s.instID (sideTargetVal maxAbs s)) w =
        sigs₂.foldl (fun w s => aset w s.instID (sideTargetVal maxAbs s)) w := by
    intro w
    have h1 : ∀ (sigs : List Signal) (w : List (String × F)),
        sigs.foldl (fun w s => aset w s.instID (sideTargetVal maxAbs s)) w =
          (sigs.map stripMeta).foldl
            (fun w s => aset w s.instID (sideTargetVal maxAbs s)) w := by
      intro sigs w
      rw [List.foldl_map]
      rfl
    rw [h1 sigs₁, h1 sigs₂, h]
  rw [hwant []]

theorem collectSignals_congr {σ : Type} (strat₁ strat₂ : StrategyM σ)
    (hstep : ∀ st c, (strat₁.onCandle st c).1 = (strat₂.onCandle st c).1 ∧
      ((strat₁.onCandle st c).2).map stripMeta = ((strat₂.onCandle st c).2).map stripMeta)
    (group : List Candle) :
    ∀ (a₁ a₂ : σ × List Signal), a₁.1 = a₂.1 →
      a₁.2.map stripMeta = a₂.2.map stripMeta →
      (group.foldl (fun acc k =>
          ((strat₁.onCandle acc.1 k).1, acc.2 ++ (strat₁.onCandle acc.1 k).2)) a₁).1 =
        (group.foldl (fun acc k =>
          ((strat₂.onCandle acc.1 k).1, acc.2 ++ (strat₂.onCandle acc.1 k).2)) a₂).1 ∧
      ((group.foldl (fun acc k =>
          ((strat₁.onCandle acc.1 k).1, acc.2 ++ (strat₁.onCandle acc.1 k).2)) a₁).2).map stripMeta =
        ((group.foldl (fun acc k =>
          ((strat₂.onCandle acc.1 k).1, acc.2 ++ (strat₂.onCandle acc.1 k).2)) a₂).2).map stripMeta := by
  induction group with
  | nil => exact fun a₁ a₂ h1 h2 => ⟨h1, h2⟩
  | cons k rest ih =>
    intro a₁ a₂ h1 h2
    simp only [List.foldl_cons]
    refine ih _ _ ?_ ?_
    · rw [h1, (hstep a₂.1 k).1]
    · rw [List.map_append, List.map_append, h1, h2, (hstep a₂.1 k).2]

theorem groupStep_congr {σ ρ π : Type} (rlog rexp : ℚ → ℚ)
    (pick : List String → List String) (cfg : Config)
    (strat₁ strat₂ : StrategyM σ) (risk : Option (RiskM ρ))
    (port : Option (PortfolioM π))
    (hname : strat₁.name = strat₂.name)
    (hstep : ∀ st c, (strat₁.onCandle st c).1 = (strat₂.onCandle st c).1 ∧
      ((strat₁.onCandle st c).2).map stripMeta = ((strat₂.onCandle st c).2).map stripMeta)
    (rs : RunState σ ρ π) (group : List Candle) :
    groupStep rlog rexp pick cfg strat₁ risk port rs group =
      groupStep rlog rexp pick cfg strat₂ risk port rs group := by
  unfold groupStep
  have hsig := collectSignals_congr strat₁ strat₂ hstep group
    (rs.sstate, []) (rs.sstate, []) rfl rfl
  have htgt :
      (match port with
        | some pm => portfolioTargets pm strat₁.name cfg.maxAbsPosition group
            (group.foldl (fun acc k =>
              ((strat₁.onCandle acc.1 k).1, acc.2 ++ (strat₁.onCandle acc.1 k).2))
              (rs.sstate, [])).2
            (match port with
              | some pm => group.foldl pm.onCandle rs.pstate
              | none => rs.pstate)
        | none => ((match port with
              | some pm => group.foldl pm.onCandle rs.pstate
              | none => rs.pstate),
            resolveTargets cfg.maxAbsPosition
              (group.foldl (fun acc k =>
                ((strat₁.onCandle acc.1 k).1, acc.2 ++ (strat₁.onCandle acc.1 k).2))
                (rs.sstate, [])).2)) =
      (match port with
        | some pm => portfolioTargets pm strat₂.name cfg.maxAbsPosition group
            (group.foldl (fun acc k =>
              ((strat₂.onCandle acc.1 k).1, acc.2 ++ (strat₂.onCandle acc.1 k).2))
              (rs.sstate, [])).2
            (match port with
              | some pm => group.foldl pm.onCandle rs.pstate
              | none => rs.pstate)
        | none => ((match port with
              | some pm => group.foldl pm.onCandle rs.pstate
              | none => rs.pstate),
            resolveTargets cfg.maxAbsPosition
              (group.foldl (fun acc k =>
                ((strat₂.onCandle acc.1 k).1, acc.2 ++ (strat₂.onCandle acc.1 k).2))
                (rs.sstate, [])).2)) := by
    cases port with
    | none =>
        simp only []
        rw [resolveTargets_congr cfg.maxAbsPosition _ _ hsig.2]
    | some pm =>
        simp only []
        rw [hname, portfolioTargets_congr pm strat₂.name cfg.maxAbsPosition group
          _ _ _ hsig.2]
  simp only [htgt, hsig.1]

/-- C3.  The claim says every closed Trade carries sub_strategy / regime /
stop_type / atr_on_entry copied from the originating signal or action meta.
The kernel's `Trade` struct (part_001:129-138) has no such fields and
`applyFill` never reads any meta: this theorem shows (1) the whole run
result is invariant under erasing all signal meta (so no output can carry
meta-derived data), and (2) a closing fill appends exactly the eight-field
record built from kernel state alone. -/
theorem C3_trades_carry_no_meta :
    (∀ (σ ρ π : Type) (rlog rexp : ℚ → ℚ) (pick : List String → List String)
        (cfg : Config) (strat₁ strat₂ : StrategyM σ) (risk : Option (RiskM ρ))
        (port : Option (PortfolioM π)) (s0 : σ) (r0 : ρ) (p0 : π)
        (series : List (String × List Candle)),
      strat₁.name = strat₂.name →
      (∀ st c, (strat₁.onCandle st c).1 = (strat₂.onCandle st c).1 ∧
        ((strat₁.onCandle st c).2).map stripMeta =
          ((strat₂.onCandle st c).2).map stripMeta) →
      run rlog rexp pick cfg strat₁ risk port s0 r0 p0 series =
        run rlog rexp pick cfg strat₂ risk port s0 r0 p0 series) ∧
    (∀ (rlog : ℚ → ℚ) (cfg : Config) (after : Option FillHook)
        (states : List (String × InstState)) (inst : String) (target refPx : F)
        (ts : ℤ) (trades : List Trade) (eq : F) (s : InstState),
      alookup states inst = some s →
      flt (fabs (fsub target s.pos)) (F.fin (1/1000000000)) = false →
      (!(fbeq s.pos (F.fin 0)) &&
        (fbeq target (F.fin 0) || !(fbeq (sign target) (sign s.pos)))) = true →
      (applyFill rlog cfg none after states inst target refPx ts trades eq).2.1 =
        trades ++
          [{ instID := inst, dir := dirName s.pos, entryTime := s.entryTs,
             entryPrice := s.entryPx, exitTime := ts, exitPrice := refPx,
             size := fabs s.pos,
             ret := fmul (fmul (sign s.pos)
               (flog rlog (fdiv refPx (fadd s.entryPx (F.fin (1/1000000000000))))))
               (fabs s.pos) }]) := by
  constructor
  · intro σ ρ π rlog rexp pick cfg strat₁ strat₂ risk port s0 r0 p0 series
      hname hstep
    have hfold : ∀ (gs : List (List Candle)) (rs : RunState σ ρ π),
        gs.foldl (groupStep rlog rexp pick cfg.withDefaults strat₁ risk port) rs =
          gs.foldl (groupStep rlog rexp pick cfg.withDefaults strat₂ risk port) rs := by
      intro gs
      induction gs with
      | nil => intro rs; rfl
      | cons g rest ih =>
          intro rs
          simp only [List.foldl_cons]
          rw [groupStep_congr rlog rexp pick cfg.withDefaults strat₁ strat₂ risk
            port hname hstep rs g, ih]
    simp only [run]
    by_cases hall : flatten series = []
    · rw [if_pos hall, if_pos hall]
    · rw [if_neg hall, if_neg hall, hfold]
  · intro rlog cfg after states inst target refPx ts trades eq s hs hsmall hclosing
    unfold applyFill
    rw [hs]
    simp only [hsmall, Bool.false_eq_true, if_false, hclosing, if_true]

/-- A strategy emitting signals whose meta carries sub-strategy style
entries (open on bar 0, close on bar 1). -/
def c3stratMeta : StrategyM ℕ :=
  { name := "s",
    onCandle := fun n k =>
      (n + 1,
        if n = 0 then
          [{ instID := "X", side := "buy", size := F.fin 1, price := k.c,
             tag := "", meta := [("atr", F.fin 2), ("mtf_alignment", F.fin 1)] }]
        else if n = 1 then
          [{ instID := "X", side := "close", size := F.fin 0, price := k.c,
             tag := "", meta := [("atr", F.fin 3)] }]
        else []) }

/-- The same strategy with all meta erased. -/
def c3stratBare : StrategyM ℕ :=
  { name := "s",
    onCandle := fun n k =>
      (n + 1,
        if n = 0 then
          [{ instID := "X", side := "buy", size := F.fin 1, price := k.c,
             tag := "", meta := [] }]
        else if n = 1 then
          [{ instID := "X", side := "close", size := F.fin 0, price := k.c,
             tag := "", meta := [] }]
        else []) }

/-- C3 witness: a run whose signals carry meta produces the very same
result — equity curve, trades and all — as the meta-free run: the trade
records cannot carry any meta-derived field. -/
theorem C3_witness :
    run qzero qzero id c9cfg c3stratMeta (none : Option (RiskM Unit))
        (none : Option (PortfolioM Unit)) 0 () () c9series =
      run qzero qzero id c9cfg c3stratBare (none : Option (RiskM Unit))
        (none : Option (PortfolioM Unit)) 0 () () c9series :=
  C3_trades_carry_no_meta.1 ℕ Unit Unit qzero qzero id c9cfg c3stratMeta
    c3stratBare none none 0 () () c9series rfl
    (by
      intro st c
      refine ⟨rfl, ?_⟩
      simp only [c3stratMeta, c3stratBare]
      split_ifs <;> simp [stripMeta])

/-! ## C1 — no look-ahead: scheduling stamps `decideApplyTs`, fills happen
only once due, and fills are stamped with the applying group's data -/

theorem applyFill_spec (rlog : ℚ → ℚ) (cfg : Config) (after : Option FillHook)
    (states : List (String × InstState)) (inst : String) (target refPx : F)
    (ts : ℤ) (trades : List Trade) (eq : F) (s : InstState)
    (h0 : alookup states inst = some s) :
    (∀ inst', inst' ≠ inst →
      alookup (applyFill rlog cfg none after states inst target refPx ts trades eq).1 inst' =
        alookup states inst') ∧
    ((applyFill rlog cfg none after states inst target refPx ts trades eq).2.1 = trades ∨
      ∃ tr : Trade,
        (applyFill rlog cfg none after states inst target refPx ts trades eq).2.1 =
          trades ++ [tr] ∧ tr.instID = inst ∧ tr.exitTime = ts ∧ tr.exitPrice = refPx) ∧
    (∀ st', alookup (applyFill rlog cfg none after states inst target refPx ts trades eq).1 inst =
        some st' →
      st'.entryTs = ts ∨ st'.entryTs = 0 ∨ st'.entryTs = s.entryTs) := by
  simp only [applyFill, h0]
  by_cases hsmall : flt (fabs (fsub target s.pos)) (F.fin (1/1000000000)) = true
  · rw [if_pos hsmall]
    refine ⟨fun _ _ => rfl, Or.inl rfl, ?_⟩
    intro st' h'
    have hss : s = st' := Option.some.inj (h0.symm.trans h')
    rw [← hss]
    exact Or.inr (Or.inr rfl)
  · rw [if_neg hsmall]
    by_cases hcl : (!(fbeq s.pos (F.fin 0)) &&
        (fbeq target (F.fin 0) || !(fbeq (sign target) (sign s.pos)))) = true
    · rw [if_pos hcl]
      refine ⟨?_, ?_, ?_⟩
      · intro inst' hne
        exact alookup_aset_ne _ _ _ _ (fun h => hne h.symm)
      · exact Or.inr ⟨_, rfl, rfl, rfl, rfl⟩
      · intro st' h'
        by_cases htz : (!(fbeq target (F.fin 0))) = true
        · rw [if_pos htz] at h'
          have hss := Option.some.inj ((alookup_aset_self _ _ _).symm.trans h')
          rw [← hss]
          exact Or.inl rfl
        · rw [if_neg htz] at h'
          have hss := Option.some.inj ((alookup_aset_self _ _ _).symm.trans h')
          rw [← hss]
          exact Or.inr (Or.inl rfl)
    · rw [if_neg hcl]
      by_cases hop : (fbeq s.pos (F.fin 0) && !(fbeq target (F.fin 0))) = true
      · rw [if_pos hop]
        refine ⟨?_, Or.inl rfl, ?_⟩
        · intro inst' hne
          exact alookup_aset_ne _ _ _ _ (fun h => hne h.symm)
        · intro st' h'
          have hss := Option.some.inj ((alookup_aset_self _ _ _).symm.trans h')
          rw [← hss]
          exact Or.inl rfl
      · rw [if_neg hop]
        refine ⟨?_, Or.inl rfl, ?_⟩
        · intro inst' hne
          exact alookup_aset_ne _ _ _ _ (fun h => hne h.symm)
        · intro st' h'
          have hss := Option.some.inj ((alookup_aset_self _ _ _).symm.trans h')
          rw [← hss]
          exact Or.inr (Or.inr rfl)

theorem applyPendings_not_due (rlog : ℚ → ℚ) (cfg : Config)
    (after : Option FillHook) (ts : ℤ) (group : List Candle) :
    ∀ (acc : List (String × InstState) × List Trade × F) (inst : String)
      (st₀ : InstState) (p : Pending),
      alookup acc.1 inst = some st₀ → st₀.pendingTarget = some p →
      ts < p.applyAt →
      alookup (applyPendings rlog cfg none after ts group acc).1 inst = some st₀ := by
  induction group with
  | nil => exact fun acc inst st₀ p h1 _ _ => h1
  | cons k rest ih =>
    intro acc inst st₀ p h1 h2 h3
    rw [applyPendings, List.foldl_cons, ← applyPendings]
    rcases hsk : alookup acc.1 k.instID with _ | st
    · exact ih _ inst st₀ p (by simp only [hsk]; exact h1) h2 h3
    · rcases hp : st.pendingTarget with _ | q
      · exact ih _ inst st₀ p (by simp only [hsk, hp]; exact h1) h2 h3
      · by_cases hdue : q.applyAt ≤ ts
        · by_cases hki : k.instID = inst
          · subst hki
            rw [hsk] at h1
            injection h1 with h1
            rw [h1] at hp
            rw [hp] at h2
            injection h2 with h2
            rw [h2] at hdue
            omega
          · refine ih _ inst st₀ p ?_ h2 h3
            simp only [hsk, hp, if_pos hdue]
            rw [alookup_aset_ne _ _ _ _ hki]
            rw [(applyFill_spec rlog cfg after acc.1 k.instID q.target
              (refPriceForFill cfg.tradeOnNextBar k) ts acc.2.1 acc.2.2 st hsk).1
              inst (fun h => hki h.symm)]
            exact h1
        · exact ih _ inst st₀ p (by simp only [hsk, hp, if_neg hdue]; exact h1) h2 h3

theorem applyPendings_trades (rlog : ℚ → ℚ) (cfg : Config)
    (after : Option FillHook) (ts : ℤ) (group : List Candle) :
    ∀ (acc : List (String × InstState) × List Trade × F) (tr : Trade),
      tr ∈ (applyPendings rlog cfg none after ts group acc).2.1 →
      tr ∈ acc.2.1 ∨ (tr.exitTime = ts ∧ ∃ k, k ∈ group ∧ k.instID = tr.instID ∧
        tr.exitPrice = refPriceForFill cfg.tradeOnNextBar k) := by
  induction group with
  | nil => exact fun acc tr h => Or.inl h
  | cons k rest ih =>
    intro acc tr h
    rw [applyPendings, List.foldl_cons, ← applyPendings] at h
    rcases hsk : alookup acc.1 k.instID with _ | st
    · simp only [hsk] at h
      rcases ih _ tr h with h' | ⟨h1, k', hk', h2⟩
      · exact Or.inl h'
      · exact Or.inr ⟨h1, k', List.mem_cons_of_mem _ hk', h2⟩
    · rcases hp : st.pendingTarget with _ | q
      · simp only [hsk, hp] at h
        rcases ih _ tr h with h' | ⟨h1, k', hk', h2⟩
        · exact Or.inl h'
        · exact Or.inr ⟨h1, k', List.mem_cons_of_mem _ hk', h2⟩
      · by_cases hdue : q.applyAt ≤ ts
        · simp only [hsk, hp] at h
          rw [if_pos hdue] at h
          rcases ih _ tr h with h' | ⟨h1, k', hk', h2⟩
          · rcases (applyFill_spec rlog cfg after acc.1 k.instID q.target
                (refPriceForFill cfg.tradeOnNextBar k) ts acc.2.1 acc.2.2 st
                hsk).2.1 with heq | ⟨tr₀, heq, hinst, hts, hpx⟩
            · rw [heq] at h'
              exact Or.inl h'
            · rw [heq] at h'
              rcases List.mem_append.mp h' with h'' | h''
              · exact Or.inl h''
              · have : tr = tr₀ := by simpa using h''
                subst this
                exact Or.inr ⟨hts, k, List.mem_cons_self _ _,
                  by rw [hinst], hpx⟩
          · exact Or.inr ⟨h1, k', List.mem_cons_of_mem _ hk', h2⟩
        · simp only [hsk, hp] at h
          rw [if_neg hdue] at h
          rcases ih _ tr h with h' | ⟨h1, k', hk', h2⟩
          · exact Or.inl h'
          · exact Or.inr ⟨h1, k', List.mem_cons_of_mem _ hk', h2⟩

theorem applyPendings_entry (rlog : ℚ → ℚ) (cfg : Config)
    (after : Option FillHook) (ts : ℤ) (group : List Candle) :
    ∀ (acc : List (String × InstState) × List Trade × F) (inst : String)
      (st' : InstState),
      alookup (applyPendings rlog cfg none after ts group acc).1 inst = some st' →
      st'.entryTs = ts ∨ st'.entryTs = 0 ∨
        ∃ st₀, alookup acc.1 inst = some st₀ ∧ st'.entryTs = st₀.entryTs := by
  induction group with
  | nil => exact fun acc inst st' h => Or.inr (Or.inr ⟨st', h, rfl⟩)
  | cons k rest ih =>
    intro acc inst st' h
    rw [applyPendings, List.foldl_cons, ← applyPendings] at h
    rcases hsk : alookup acc.1 k.instID with _ | st
    · simp only [hsk] at h
      exact ih _ inst st' h
    · rcases hp : st.pendingTarget with _ | q
      · simp only [hsk, hp] at h
        exact ih _ inst st' h
      · by_cases hdue : q.applyAt ≤ ts
        · simp only [hsk, hp] at h
          rw [if_pos hdue] at h
          rcases ih _ inst st' h with h' | h' | ⟨st₁, h1, h2⟩
          · exact Or.inl h'
          · exact Or.inr (Or.inl h')
          · -- the intermediate state after the fill and the pending clear
            by_cases hki : k.instID = inst
            · subst hki
              rw [alookup_aset_self] at h1
              injection h1 with h1
              rw [← h1] at h2
              have hspec := (applyFill_spec rlog cfg after acc.1 k.instID q.target
                (refPriceForFill cfg.tradeOnNextBar k) ts acc.2.1 acc.2.2 st hsk).2.2
              rcases hlk : alookup (applyFill rlog cfg none after acc.1 k.instID
                  q.target (refPriceForFill cfg.tradeOnNextBar k) ts acc.2.1
                  acc.2.2).1 k.instID with _ | stf
              · rw [hlk] at h2
                simp only [Option.getD_none, instState0] at h2
                exact Or.inr (Or.inl h2)
              · rw [hlk] at h2
                simp only [Option.getD_some] at h2
                rcases hspec stf hlk with he | he | he
                · exact Or.inl (h2.trans he)
                · exact Or.inr (Or.inl (h2.trans he))
                · exact Or.inr (Or.inr ⟨st, hsk, h2.trans he⟩)
            · rw [alookup_aset_ne _ _ _ _ hki] at h1
              rw [(applyFill_spec rlog cfg after acc.1 k.instID q.target
                (refPriceForFill cfg.tradeOnNextBar k) ts acc.2.1 acc.2.2 st hsk).1
                inst (fun hh => hki hh.symm)] at h1
              exact Or.inr (Or.inr ⟨st₁, h1, h2⟩)
        · simp only [hsk, hp] at h
          rw [if_neg hdue] at h
          exact ih _ inst st' h

theorem scheduleInst_pending_char {ρ : Type} (cfg : Config)
    (risk : Option (RiskM ρ)) (ts : ℤ) (group : List Candle)
    (acc : List (String × InstState) × ρ) (inst : String) (tgt : F)
    (inst' : String) (st' : InstState) (p : Pending)
    (h : alookup (scheduleInst cfg risk ts group acc inst tgt).1 inst' = some st')
    (hp : st'.pendingTarget = some p) :
    (∃ st₀, alookup acc.1 inst' = some st₀ ∧ st₀.pendingTarget = some p) ∨
      p.applyAt = decideApplyTs ts cfg.tradeOnNextBar cfg.barMinutes := by
  by_cases hii : inst' = inst
  · subst hii
    rcases h0 : alookup acc.1 inst' with _ | ss₀
    · simp only [scheduleInst, h0, Option.getD_none, Option.isNone_none, if_true] at h
      by_cases hskip : flt (fabs (fsub tgt instState0.pos)) cfg.minRebalanceStep = true
      · rw [if_pos hskip] at h
        rw [alookup_aset_self] at h
        injection h with h
        rw [← h] at hp
        cases hp
      · rw [if_neg hskip] at h
        rw [alookup_aset_self] at h
        injection h with h
        rw [← h] at hp
        simp only [] at hp
        by_cases hact : (((match risk with
            | none => (acc.2, tgt, ([] : List Action))
            | some rm =>
                rm.approve acc.2 inst' instState0.pos tgt
                  (if fbeq instState0.lastClose (F.fin 0) then
                    (match findInGroup group inst' with
                     | some k => k.c
                     | none => instState0.lastClose)
                  else instState0.lastClose) instState0.holding).2.2).any
            (fun a => a.typ = "close" || a.typ = "halt")) = true
        · rw [if_pos hact] at hp
          injection hp with hp
          exact Or.inr (congrArg Pending.applyAt hp).symm
        · rw [if_neg hact] at hp
          simp only [instState0] at hp
          injection hp with hp
          exact Or.inr (congrArg Pending.applyAt hp).symm
    · simp only [scheduleInst, h0, Option.getD_some, Option.isNone_some,
        Bool.false_eq_true, if_false] at h
      by_cases hskip : flt (fabs (fsub tgt ss₀.pos)) cfg.minRebalanceStep = true
      · rw [if_pos hskip] at h
        rw [h0] at h
        injection h with h
        rw [← h] at hp
        exact Or.inl ⟨ss₀, rfl, hp⟩
      · rw [if_neg hskip] at h
        rw [alookup_aset_self] at h
        injection h with h
        rw [← h] at hp
        simp only [] at hp
        by_cases hact : (((match risk with
            | none => (acc.2, tgt, ([] : List Action))
            | some rm =>
                rm.approve acc.2 inst' ss₀.pos tgt
                  (if fbeq ss₀.lastClose (F.fin 0) then
                    (match findInGroup group inst' with
                     | some k => k.c
                     | none => ss₀.lastClose)
                  else ss₀.lastClose) ss₀.holding).2.2).any
            (fun a => a.typ = "close" || a.typ = "halt")) = true
        · rw [if_pos hact] at hp
          injection hp with hp
          exact Or.inr (congrArg Pending.applyAt hp).symm
        · rw [if_neg hact] at hp
          rcases hq : ss₀.pendingTarget with _ | q
          · rw [hq] at hp
            simp only [] at hp
            injection hp with hp
            exact Or.inr (congrArg Pending.applyAt hp).symm
          · rw [hq] at hp
            simp only [] at hp
            injection hp with hp
            rw [hp] at hq
            exact Or.inl ⟨ss₀, rfl, hq⟩
  · -- a different instrument: the scheduling step never touches it
    have hsame : alookup (scheduleInst cfg risk ts group acc inst tgt).1 inst' =
        alookup acc.1 inst' := by
      rcases h0 : alookup acc.1 inst with _ | ss₀
      · simp only [scheduleInst, h0, Option.getD_none, Option.isNone_none, if_true]
        by_cases hskip : flt (fabs (fsub tgt instState0.pos)) cfg.minRebalanceStep = true
        · rw [if_pos hskip]
          exact alookup_aset_ne _ _ _ _ (fun hh => hii hh.symm)
        · rw [if_neg hskip]
          rw [alookup_aset_ne _ _ _ _ (fun hh => hii hh.symm)]
          exact alookup_aset_ne _ _ _ _ (fun hh => hii hh.symm)
      · simp only [scheduleInst, h0, Option.getD_some, Option.isNone_some,
          Bool.false_eq_true, if_false]
        by_cases hskip : flt (fabs (fsub tgt ss₀.pos)) cfg.minRebalanceStep = true
        · rw [if_pos hskip]
        · rw [if_neg hskip]
          exact alookup_aset_ne _ _ _ _ (fun hh => hii hh.symm)
    rw [hsame] at h
    exact Or.inl ⟨st', h, hp⟩

theorem scheduleTargets_pending_char {ρ : Type}
    (pick : List String → List String) (cfg : Config) (risk : Option (RiskM ρ))
    (ts : ℤ) (group : List Candle) (targets : List (String × F)) :
    ∀ (states : List (String × InstState)) (r : ρ) (inst' : String)
      (st' : InstState) (p : Pending),
      alookup (scheduleTargets pick cfg risk ts group targets states r).1 inst' =
        some st' →
      st'.pendingTarget = some p →
      (∃ st₀, alookup states inst' = some st₀ ∧ st₀.pendingTarget = some p) ∨
        p.applyAt = decideApplyTs ts cfg.tradeOnNextBar cfg.barMinutes := by
  unfold scheduleTargets
  generalize pick (targets.map Prod.fst) = order
  induction order with
  | nil => exact fun states r inst' st' p h hp => Or.inl ⟨st', h, hp⟩
  | cons i rest ih =>
    intro states r inst' st' p h hp
    rw [List.foldl_cons] at h
    rcases ht : alookup targets i with _ | tgt
    · rw [ht] at h
      exact ih states r inst' st' p h hp
    · rw [ht] at h
      rcases ih (scheduleInst cfg risk ts group (states, r) i tgt).1
          (scheduleInst cfg risk ts group (states, r) i tgt).2 inst' st' p h hp with
        ⟨st₀, h1, h2⟩ | hright
      · exact scheduleInst_pending_char cfg risk ts group (states, r) i tgt inst'
          st₀ p h1 h2
      · exact Or.inr hright

/-- C1 (no look-ahead).  (1) A signal processed at group timestamp `ts` is
scheduled for `decideApplyTs ts`, which is never before `ts` (for a
nonnegative bar length); every pending present after the scheduling step is
either an untouched older pending or stamped with exactly
`decideApplyTs ts`.  (2) A pending is applied only once the group
timestamp has reached its `applyAt`: a not-yet-due pending leaves its
instrument fully untouched.  (3) Each trade appended by the application
step is stamped with the applying group's timestamp and with the fill
reference price of that instrument's bar in the applying group — the bar's
open when `trade_on_next_bar` and its close otherwise — and every
newly-stamped position entry timestamp is the applying group's timestamp.
Hence a position entered from a signal at `ts₀` has
`entry_ts ≥ applyAt = decideApplyTs ts₀ ≥ ts₀`. -/
theorem C1_no_lookahead :
    (∀ (ts : ℤ) (next : Bool) (barMin : ℤ), 0 ≤ barMin →
      ts ≤ decideApplyTs ts next barMin) ∧
    (∀ k : Candle, refPriceForFill true k = k.o) ∧
    (∀ k : Candle, refPriceForFill false k = k.c) ∧
    (∀ (ρ : Type) (pick : List String → List String) (cfg : Config)
        (risk : Option (RiskM ρ)) (ts : ℤ) (group : List Candle)
        (targets : List (String × F)) (states : List (String × InstState))
        (r : ρ) (inst' : String) (st' : InstState) (p : Pending),
      alookup (scheduleTargets pick cfg risk ts group targets states r).1 inst' =
        some st' →
      st'.pendingTarget = some p →
      (∃ st₀, alookup states inst' = some st₀ ∧ st₀.pendingTarget = some p) ∨
        p.applyAt = decideApplyTs ts cfg.tradeOnNextBar cfg.barMinutes) ∧
    (∀ (rlog : ℚ → ℚ) (cfg : Config) (after : Option FillHook) (ts : ℤ)
        (group : List Candle) (acc : List (String × InstState) × List Trade × F)
        (inst : String) (st₀ : InstState) (p : Pending),
      alookup acc.1 inst = some st₀ → st₀.pendingTarget = some p →
      ts < p.applyAt →
      alookup (applyPendings rlog cfg none after ts group acc).1 inst = some st₀) ∧
    (∀ (rlog : ℚ → ℚ) (cfg : Config) (after : Option FillHook) (ts : ℤ)
        (group : List Candle) (acc : List (String × InstState) × List Trade × F)
        (tr : Trade),
      tr ∈ (applyPendings rlog cfg none after ts group acc).2.1 →
      tr ∈ acc.2.1 ∨ (tr.exitTime = ts ∧ ∃ k, k ∈ group ∧ k.instID = tr.instID ∧
        tr.exitPrice = refPriceForFill cfg.tradeOnNextBar k)) ∧
    (∀ (rlog : ℚ → ℚ) (cfg : Config) (after : Option FillHook) (ts : ℤ)
        (group : List Candle) (acc : List (String × InstState) × List Trade × F)
        (inst : String) (st' : InstState),
      alookup (applyPendings rlog cfg none after ts group acc).1 inst = some st' →
      st'.entryTs = ts ∨ st'.entryTs = 0 ∨
        ∃ st₀, alookup acc.1 inst = some st₀ ∧ st'.entryTs = st₀.entryTs) := by
  refine ⟨?_, fun _ => rfl, fun _ => rfl, ?_, ?_, ?_, ?_⟩
  · intro ts next barMin h
    cases next with
    | false => exact le_refl ts
    | true =>
      simp only [decideApplyTs, nextBarTs, if_true]
      omega
  · intro ρ pick cfg risk ts group targets states r inst' st' p h hp
    exact scheduleTargets_pending_char pick cfg risk ts group targets states r
      inst' st' p h hp
  · intro rlog cfg after ts group acc inst st₀ p h1 h2 h3
    exact applyPendings_not_due rlog cfg after ts group acc inst st₀ p h1 h2 h3
  · intro rlog cfg after ts group acc tr h
    exact applyPendings_trades rlog cfg after ts group acc tr h
  · intro rlog cfg after ts group acc inst st' h
    exact applyPendings_entry rlog cfg after ts group acc inst st' h

/-- C1 witness: the scheduling bound at a concrete input, and a concrete
not-yet-due pending surviving the application step untouched. -/
theorem C1_witness :
    ((3 : ℤ) ≤ decideApplyTs 3 true 5) ∧
    alookup (applyPendings qzero c9cfg none none 0 [c9bar 0]
        ([("X", { instState0 with pendingTarget := some ⟨F.fin 1, 300000⟩ })],
         [], F.fin 1)).1 "X" =
      some { instState0 with pendingTarget := some ⟨F.fin 1, 300000⟩ } := by
  constructor
  · exact C1_no_lookahead.1 3 true 5 (by omega)
  · exact C1_no_lookahead.2.2.2.2.1 qzero c9cfg none 0 [c9bar 0]
      ([("X", { instState0 with pendingTarget := some ⟨F.fin 1, 300000⟩ })],
       [], F.fin 1) "X"
      { instState0 with pendingTarget := some ⟨F.fin 1, 300000⟩ }
      ⟨F.fin 1, 300000⟩ (by simp [alookup]) rfl (by norm_num)

/-! ## C2: the `range targets` order in step 2.4 and output determinism

`Engine.Run` iterates `for inst, tgt := range targets` (part_001 line 324)
without sorting the keys, so Go's unspecified map-range order applies; the
model makes that order the oracle `pick`.  The development below proves that
with no risk component the `Result` of `run` is identical for every
permutation oracle, so two executions of the same backtest agree. -/

/-- Two association lists denote the same Go map when every lookup agrees. -/
def statesEq (m₁ m₂ : List (String × InstState)) : Prop :=
  ∀ k, alookup m₁ k = alookup m₂ k

theorem statesEq_aset {m₁ m₂ : List (String × InstState)}
    (h : statesEq m₁ m₂) (k : String) (v : InstState) :
    statesEq (aset m₁ k v) (aset m₂ k v) := by
  intro x
  by_cases hx : k = x
  · subst hx
    rw [alookup_aset_self, alookup_aset_self]
  · rw [alookup_aset_ne _ _ _ _ hx, alookup_aset_ne _ _ _ _ hx, h x]

/-- The effect of one step-2.4 iteration (risk absent) on the instrument's
own state slot, as a function of the slot's previous contents. -/
def schedVal (cfg : Config) (ts : ℤ) (o : Option InstState) (tgt : F) :
    Option InstState :=
  let ss := o.getD instState0
  if flt (fabs (fsub tgt ss.pos)) cfg.minRebalanceStep then some ss
  else some { ss with pendingTarget :=
    match ss.pendingTarget with
    | none => some { target := tgt,
                     applyAt := decideApplyTs ts cfg.tradeOnNextBar cfg.barMinutes }
    | some p => some p }

theorem scheduleInst_none_snd {ρ : Type} (cfg : Config) (ts : ℤ)
    (group : List Candle) (a : List (String × InstState) × ρ)
    (inst : String) (tgt : F) :
    (scheduleInst cfg none ts group a inst tgt).2 = a.2 := by
  simp only [scheduleInst]
  split <;> rfl

theorem scheduleInst_none_lookup_ne {ρ : Type} (cfg : Config) (ts : ℤ)
    (group : List Candle) (a : List (String × InstState) × ρ)
    (inst x : String) (tgt : F) (hx : inst ≠ x) :
    alookup (scheduleInst cfg none ts group a inst tgt).1 x = alookup a.1 x := by
  cases ha : alookup a.1 inst with
  | none =>
      simp only [scheduleInst, ha, Option.isNone_none, if_true, Option.getD_none]
      split <;> simp [alookup_aset_ne _ _ _ _ hx]
  | some s =>
      simp only [scheduleInst, ha, Option.isNone_some, Bool.false_eq_true,
        if_false, Option.getD_some]
      split
      · rfl
      · simp [alookup_aset_ne _ _ _ _ hx]

theorem scheduleInst_none_lookup_self {ρ : Type} (cfg : Config) (ts : ℤ)
    (group : List Candle) (a : List (String × InstState) × ρ)
    (inst : String) (tgt : F) :
    alookup (scheduleInst cfg none ts group a inst tgt).1 inst =
      schedVal cfg ts (alookup a.1 inst) tgt := by
  cases ha : alookup a.1 inst with
  | none =>
      simp only [scheduleInst, schedVal, ha, Option.isNone_none, if_true,
        Option.getD_none, instState0]
      by_cases hc : flt (fabs (fsub tgt (F.fin 0))) cfg.minRebalanceStep <;>
        simp [hc, alookup_aset_self]
  | some s =>
      simp only [scheduleInst, schedVal, ha, Option.isNone_some,
        Bool.false_eq_true, if_false, Option.getD_some]
      by_cases hc : flt (fabs (fsub tgt s.pos)) cfg.minRebalanceStep <;>
        simp [hc, alookup_aset_self, ha]

/-- The loop body of step 2.4 as a named function of the visited key. -/
def schedStep {ρ : Type} (cfg : Config) (risk : Option (RiskM ρ)) (ts : ℤ)
    (group : List Candle) (targets : List (String × F))
    (acc : List (String × InstState) × ρ) (inst : String) :
    List (String × InstState) × ρ :=
  match alookup targets inst with
  | some tgt => scheduleInst cfg risk ts group acc inst tgt
  | none => acc

theorem scheduleTargets_eq_fold {ρ : Type} (pick : List String → List String)
    (cfg : Config) (risk : Option (RiskM ρ)) (ts : ℤ) (group : List Candle)
    (targets : List (String × F)) (states : List (String × InstState)) (r : ρ) :
    scheduleTargets pick cfg risk ts group targets states r =
      (pick (targets.map Prod.fst)).foldl
        (schedStep cfg risk ts group targets) (states, r) := rfl

theorem schedStep_none_snd {ρ : Type} (cfg : Config) (ts : ℤ)
    (group : List Candle) (targets : List (String × F))
    (a : List (String × InstState) × ρ) (inst : String) :
    (schedStep cfg none ts group targets a inst).2 = a.2 := by
  unfold schedStep
  cases alookup targets inst with
  | none => rfl
  | some tgt => exact scheduleInst_none_snd cfg ts group a inst tgt

theorem schedStep_none_lookup_ne {ρ : Type} (cfg : Config) (ts : ℤ)
    (group : List Candle) (targets : List (String × F))
    (a : List (String × InstState) × ρ) (inst x : String) (hx : inst ≠ x) :
    alookup (schedStep cfg none ts group targets a inst).1 x = alookup a.1 x := by
  unfold schedStep
  cases alookup targets inst with
  | none => rfl
  | some tgt => exact scheduleInst_none_lookup_ne cfg ts group a inst x tgt hx

theorem schedStep_none_lookup_self {ρ : Type} (cfg : Config) (ts : ℤ)
    (group : List Candle) (targets : List (String × F))
    (a : List (String × InstState) × ρ) (inst : String) :
    alookup (schedStep cfg none ts group targets a inst).1 inst =
      (match alookup targets inst with
       | some tgt => schedVal cfg ts (alookup a.1 inst) tgt
       | none => alookup a.1 inst) := by
  unfold schedStep
  cases alookup targets inst with
  | none => rfl
  | some tgt => exact scheduleInst_none_lookup_self cfg ts group a inst tgt

theorem schedStep_none_congr {ρ : Type} (cfg : Config) (ts : ℤ)
    (group : List Candle) (targets : List (String × F))
    {a₁ a₂ : List (String × InstState) × ρ} (h : statesEq a₁.1 a₂.1)
    (inst : String) :
    statesEq (schedStep cfg none ts group targets a₁ inst).1
      (schedStep cfg none ts group targets a₂ inst).1 := by
  intro x
  by_cases hx : inst = x
  · subst hx
    rw [schedStep_none_lookup_self, schedStep_none_lookup_self, h inst]
  · rw [schedStep_none_lookup_ne cfg ts group targets a₁ inst x hx,
      schedStep_none_lookup_ne cfg ts group targets a₂ inst x hx, h x]

theorem schedStep_none_comm {ρ : Type} (cfg : Config) (ts : ℤ)
    (group : List Candle) (targets : List (String × F))
    (a : List (String × InstState) × ρ) {i j : String} (hij : i ≠ j) :
    statesEq (schedStep cfg none ts group targets
        (schedStep cfg none ts group targets a i) j).1
      (schedStep cfg none ts group targets
        (schedStep cfg none ts group targets a j) i).1 := by
  intro x
  by_cases hxi : i = x
  · subst hxi
    rw [schedStep_none_lookup_ne cfg ts group targets _ j i (Ne.symm hij),
      schedStep_none_lookup_self, schedStep_none_lookup_self,
      schedStep_none_lookup_ne cfg ts group targets a j i (Ne.symm hij)]
  · by_cases hxj : j = x
    · subst hxj
      rw [schedStep_none_lookup_ne cfg ts group targets _ i j hij,
        schedStep_none_lookup_self, schedStep_none_lookup_self,
        schedStep_none_lookup_ne cfg ts group targets a i j hij]
    · rw [schedStep_none_lookup_ne cfg ts group targets _ j x hxj,
        schedStep_none_lookup_ne cfg ts group targets a i x hxi,
        schedStep_none_lookup_ne cfg ts group targets _ i x hxi,
        schedStep_none_lookup_ne cfg ts group targets a j x hxj]

theorem schedFold_snd {ρ : Type} (cfg : Config) (ts : ℤ) (group : List Candle)
    (targets : List (String × F)) (l : List String)
    (a : List (String × InstState) × ρ) :
    (l.foldl (schedStep cfg none ts group targets) a).2 = a.2 := by
  induction l generalizing a with
  | nil => rfl
  | cons x l ih =>
      rw [List.foldl_cons, ih, schedStep_none_snd]

theorem schedFold_congr {ρ : Type} (cfg : Config) (ts : ℤ) (group : List Candle)
    (targets : List (String × F)) (l : List String)
    {a₁ a₂ : List (String × InstState) × ρ} (h : statesEq a₁.1 a₂.1) :
    statesEq (l.foldl (schedStep cfg none ts group targets) a₁).1
      (l.foldl (schedStep cfg none ts group targets) a₂).1 := by
  induction l generalizing a₁ a₂ with
  | nil => exact h
  | cons x l ih =>
      rw [List.foldl_cons, List.foldl_cons]
      exact ih (schedStep_none_congr cfg ts group targets h x)

theorem schedFold_perm {ρ : Type} (cfg : Config) (ts : ℤ) (group : List Candle)
    (targets : List (String × F)) {l₁ l₂ : List String} (hp : l₁.Perm l₂) :
    ∀ (a₁ a₂ : List (String × InstState) × ρ), statesEq a₁.1 a₂.1 →
      statesEq (l₁.foldl (schedStep cfg none ts group targets) a₁).1
        (l₂.foldl (schedStep cfg none ts group targets) a₂).1 := by
  induction hp with
  | nil => exact fun a₁ a₂ h => h
  | cons x hp ih =>
      intro a₁ a₂ h
      rw [List.foldl_cons, List.foldl_cons]
      exact ih _ _ (schedStep_none_congr cfg ts group targets h x)
  | swap x y l =>
      intro a₁ a₂ h
      rw [List.foldl_cons, List.foldl_cons, List.foldl_cons, List.foldl_cons]
      apply schedFold_congr
      by_cases hxy : y = x
      · subst hxy
        exact schedStep_none_congr cfg ts group targets
          (schedStep_none_congr cfg ts group targets h y) y
      · intro k
        exact (schedStep_none_congr cfg ts group targets
          (schedStep_none_congr cfg ts group targets h y) x k).trans
          (schedStep_none_comm cfg ts group targets a₂ hxy k)
  | trans h₁ h₂ ih₁ ih₂ =>
      intro a₁ a₂ h
      intro k
      exact (ih₁ a₁ a₁ (fun _ => rfl) k).trans (ih₂ a₁ a₂ h k)

/-- Step 2.4 over the whole targets map is order-independent (risk absent):
any two permutation oracles leave pointwise-equal state maps and the same
risk state. -/
theorem scheduleTargets_none_perm {ρ : Type}
    (pick₁ pick₂ : List String → List String)
    (hp₁ : ∀ l, (pick₁ l).Perm l) (hp₂ : ∀ l, (pick₂ l).Perm l)
    (cfg : Config) (ts : ℤ) (group : List Candle)
    (targets : List (String × F)) {st₁ st₂ : List (String × InstState)}
    (r : ρ) (h : statesEq st₁ st₂) :
    statesEq (scheduleTargets pick₁ cfg none ts group targets st₁ r).1
        (scheduleTargets pick₂ cfg none ts group targets st₂ r).1 ∧
      (scheduleTargets pick₁ cfg none ts group targets st₁ r).2 = r ∧
      (scheduleTargets pick₂ cfg none ts group targets st₂ r).2 = r := by
  rw [scheduleTargets_eq_fold, scheduleTargets_eq_fold]
  refine ⟨?_, schedFold_snd cfg ts group targets _ _,
    schedFold_snd cfg ts group targets _ _⟩
  exact schedFold_perm cfg ts group targets
    ((hp₁ (targets.map Prod.fst)).trans (hp₂ (targets.map Prod.fst)).symm)
    (st₁, r) (st₂, r) h

theorem foldl_lookup_congr {β : Type} (f : β → Candle → Option InstState → β)
    {s₁ s₂ : List (String × InstState)} (h : statesEq s₁ s₂)
    (g : List Candle) (acc : β) :
    g.foldl (fun a k => f a k (alookup s₁ k.instID)) acc =
      g.foldl (fun a k => f a k (alookup s₂ k.instID)) acc := by
  induction g generalizing acc with
  | nil => rfl
  | cons k g ih =>
      simp only [List.foldl_cons]
      rw [h k.instID]
      exact ih _

theorem groupSumRet_congr (rlog : ℚ → ℚ) {s₁ s₂ : List (String × InstState)}
    (h : statesEq s₁ s₂) (g : List Candle) :
    groupSumRet rlog s₁ g = groupSumRet rlog s₂ g := by
  unfold groupSumRet
  exact foldl_lookup_congr (fun acc k o =>
    match o with
    | some st =>
        if flt (F.fin 0) st.lastClose && !(fbeq st.pos (F.fin 0)) then
          fadd acc (fmul st.pos (flog rlog (fdiv k.c st.lastClose)))
        else acc
    | none => acc) h g (F.fin 0)

theorem applyFill_congr (rlog : ℚ → ℚ) (cfg : Config)
    (before after : Option FillHook) {s₁ s₂ : List (String × InstState)}
    (h : statesEq s₁ s₂) (inst : String) (target px : F) (ts : ℤ)
    (tr : List Trade) (eq : F) :
    statesEq (applyFill rlog cfg before after s₁ inst target px ts tr eq).1
        (applyFill rlog cfg before after s₂ inst target px ts tr eq).1 ∧
      (applyFill rlog cfg before after s₁ inst target px ts tr eq).2 =
        (applyFill rlog cfg before after s₂ inst target px ts tr eq).2 := by
  have h1 := h inst
  cases ha : alookup s₂ inst with
  | none =>
      rw [ha] at h1
      simp only [applyFill, h1, ha]
      exact ⟨h, by trivial⟩
  | some s =>
      rw [ha] at h1
      simp only [applyFill, h1, ha]
      by_cases hc : flt (fabs (fsub target s.pos)) (F.fin (1/1000000000)) <;>
        simp only [hc, Bool.false_eq_true, if_true, if_false]
      · exact ⟨h, by trivial⟩
      · exact ⟨statesEq_aset h _ _, by trivial⟩

/-- The loop body of step 2.6 as a named function of the group's bar. -/
def apStep (rlog : ℚ → ℚ) (cfg : Config) (before after : Option FillHook)
    (ts : ℤ) (acc : List (String × InstState) × List Trade × F) (k : Candle) :
    List (String × InstState) × List Trade × F :=
  let states := acc.1
  match alookup states k.instID with
  | some st =>
      match st.pendingTarget with
      | some p =>
          if p.applyAt ≤ ts then
            let price := refPriceForFill cfg.tradeOnNextBar k
            let out := applyFill rlog cfg before after states k.instID p.target
              price ts acc.2.1 acc.2.2
            let st' := (alookup out.1 k.instID).getD instState0
            (aset out.1 k.instID { st' with pendingTarget := none },
             out.2.1, out.2.2)
          else acc
      | none => acc
  | none => acc

theorem applyPendings_eq_fold (rlog : ℚ → ℚ) (cfg : Config)
    (before after : Option FillHook) (ts : ℤ) (group : List Candle)
    (acc0 : List (String × InstState) × List Trade × F) :
    applyPendings rlog cfg before after ts group acc0 =
      group.foldl (apStep rlog cfg before after ts) acc0 := rfl

theorem apStep_congr (rlog : ℚ → ℚ) (cfg : Config)
    (before after : Option FillHook) (ts : ℤ) (k : Candle)
    {a₁ a₂ : List (String × InstState) × List Trade × F}
    (h : statesEq a₁.1 a₂.1) (h2 : a₁.2 = a₂.2) :
    statesEq (apStep rlog cfg before after ts a₁ k).1
        (apStep rlog cfg before after ts a₂ k).1 ∧
      (apStep rlog cfg before after ts a₁ k).2 =
        (apStep rlog cfg before after ts a₂ k).2 := by
  have h1 := h k.instID
  cases ha : alookup a₂.1 k.instID with
  | none =>
      rw [ha] at h1
      simp only [apStep, h1, ha]
      exact ⟨h, h2⟩
  | some st =>
      rw [ha] at h1
      cases hp : st.pendingTarget with
      | none =>
          simp only [apStep, h1, ha, hp]
          exact ⟨h, h2⟩
      | some p =>
          by_cases hdue : p.applyAt ≤ ts
          · simp only [apStep, h1, ha, hp, if_pos hdue, h2]
            have hf := applyFill_congr rlog cfg before after h k.instID p.target
              (refPriceForFill cfg.tradeOnNextBar k) ts a₂.2.1 a₂.2.2
            rw [hf.1 k.instID, hf.2]
            exact ⟨statesEq_aset hf.1 _ _, rfl⟩
          · simp only [apStep, h1, ha, hp, if_neg hdue]
            exact ⟨h, h2⟩

theorem applyPendings_congr (rlog : ℚ → ℚ) (cfg : Config)
    (before after : Option FillHook) (ts : ℤ) (group : List Candle) :
    ∀ (a₁ a₂ : List (String × InstState) × List Trade × F),
      statesEq a₁.1 a₂.1 → a₁.2 = a₂.2 →
      statesEq (applyPendings rlog cfg before after ts group a₁).1
          (applyPendings rlog cfg before after ts group a₂).1 ∧
        (applyPendings rlog cfg before after ts group a₁).2 =
          (applyPendings rlog cfg before after ts group a₂).2 := by
  intro a₁ a₂ h h2
  rw [applyPendings_eq_fold, applyPendings_eq_fold]
  induction group generalizing a₁ a₂ with
  | nil => exact ⟨h, h2⟩
  | cons k g ih =>
      rw [List.foldl_cons, List.foldl_cons]
      have hs := apStep_congr rlog cfg before after ts k h h2
      exact ih _ _ hs.1 hs.2

theorem rollStates_congr {s₁ s₂ : List (String × InstState)}
    (h : statesEq s₁ s₂) (g : List Candle) :
    statesEq (rollStates s₁ g) (rollStates s₂ g) := by
  unfold rollStates
  induction g generalizing s₁ s₂ with
  | nil => exact h
  | cons k g ih =>
      simp only [List.foldl_cons]
      refine ih ?_
      rw [h k.instID]
      exact statesEq_aset h _ _

/-- Equivalence of main-loop states: all scalar fields equal, the state
maps pointwise equal. -/
def rsEq {σ ρ π : Type} (a b : RunState σ ρ π) : Prop :=
  a.eq = b.eq ∧ a.peak = b.peak ∧ a.maxDD = b.maxDD ∧
  statesEq a.states b.states ∧ a.curve = b.curve ∧ a.trades = b.trades ∧
  a.sstate = b.sstate ∧ a.rstate = b.rstate ∧ a.pstate = b.pstate

theorem rsEq_refl {σ ρ π : Type} (a : RunState σ ρ π) : rsEq a a :=
  ⟨rfl, rfl, rfl, fun _ => rfl, rfl, rfl, rfl, rfl, rfl⟩

/-- Steps 2.4-2.8 of the loop body, with everything computed before the
`range targets` iteration held fixed: the resulting loop states are
equivalent for any two permutation oracles. -/
theorem groupTail_equiv {σ ρ π : Type} (rlog : ℚ → ℚ)
    (pick₁ pick₂ : List String → List String)
    (hp₁ : ∀ l, (pick₁ l).Perm l) (hp₂ : ∀ l, (pick₂ l).Perm l)
    (cfg : Config) (ts : ℤ) (g : List Candle) (targets : List (String × F))
    {st₁ st₂ : List (String × InstState)} (hst : statesEq st₁ st₂) (r : ρ)
    (tr : List Trade) (e pk mdd sum : F) (cv : List BarRecord)
    (ss : σ) (ps : π) :
    rsEq
      (let ap := applyPendings rlog cfg cfg.beforeFill cfg.afterFill ts g
        ((scheduleTargets pick₁ cfg none ts g targets st₁ r).1, tr, e)
       let eq := ap.2.2
       let peak := if flt pk eq then eq else pk
       let dd := fdiv (fsub peak eq) (fadd peak (F.fin (1/1000000000000)))
       { eq := eq, peak := peak,
         maxDD := if flt mdd dd then dd else mdd,
         states := rollStates ap.1 g,
         curve := cv ++ [{ ts := ts, equity := eq, retv := sum, drawdown := dd }],
         trades := ap.2.1, sstate := ss,
         rstate := (scheduleTargets pick₁ cfg none ts g targets st₁ r).2,
         pstate := ps })
      (let ap := applyPendings rlog cfg cfg.beforeFill cfg.afterFill ts g
        ((scheduleTargets pick₂ cfg none ts g targets st₂ r).1, tr, e)
       let eq := ap.2.2
       let peak := if flt pk eq then eq else pk
       let dd := fdiv (fsub peak eq) (fadd peak (F.fin (1/1000000000000)))
       { eq := eq, peak := peak,
         maxDD := if flt mdd dd then dd else mdd,
         states := rollStates ap.1 g,
         curve := cv ++ [{ ts := ts, equity := eq, retv := sum, drawdown := dd }],
         trades := ap.2.1, sstate := ss,
         rstate := (scheduleTargets pick₂ cfg none ts g targets st₂ r).2,
         pstate := ps }) := by
  have hsch := scheduleTargets_none_perm pick₁ pick₂ hp₁ hp₂ cfg ts g targets r hst
  have hap := applyPendings_congr rlog cfg cfg.beforeFill cfg.afterFill ts g
    ((scheduleTargets pick₁ cfg none ts g targets st₁ r).1, tr, e)
    ((scheduleTargets pick₂ cfg none ts g targets st₂ r).1, tr, e) hsch.1 rfl
  have hE := congrArg Prod.snd hap.2
  have hT := congrArg Prod.fst hap.2
  unfold rsEq
  dsimp only
  refine ⟨hE, ?_, ?_, rollStates_congr hap.1 g, ?_, hT, rfl, ?_, rfl⟩
  · rw [hE]
  · rw [hE]
  · rw [hE]
  · exact hsch.2.1.trans hsch.2.2.symm

/-- One loop iteration preserves loop-state equivalence across permutation
oracles when no risk component is installed. -/
theorem groupStep_pick_equiv {σ ρ π : Type} (rlog rexp : ℚ → ℚ)
    (pick₁ pick₂ : List String → List String)
    (hp₁ : ∀ l, (pick₁ l).Perm l) (hp₂ : ∀ l, (pick₂ l).Perm l)
    (cfg : Config) (strat : StrategyM σ) (port : Option (PortfolioM π))
    {rs₁ rs₂ : RunState σ ρ π} (h : rsEq rs₁ rs₂) (g : List Candle) :
    rsEq (groupStep rlog rexp pick₁ cfg strat none port rs₁ g)
      (groupStep rlog rexp pick₂ cfg strat none port rs₂ g) := by
  obtain ⟨he, hpk, hm, hst, hcv, htr, hss, hrs, hps⟩ := h
  have hsum := groupSumRet_congr rlog hst g
  simp only [groupStep]
  rw [he, hpk, hm, hcv, htr, hss, hrs, hps, hsum]
  exact groupTail_equiv rlog pick₁ pick₂ hp₁ hp₂ cfg _ g _ hst _ _ _ _ _ _ _ _ _

/-- C2.  Determinism of `Engine.Run` across the unspecified `range targets`
order of step 2.4 (no risk component installed): for any two admissible
iteration orders — any two oracles that permute the key list — the entire
`Result` (equity curve, trade list, final equity, total return, max
drawdown, win rate, trade count) is identical.  Hence two executions of the
same backtest on the same inputs agree, and the leaderboard built from
those results is in the same order; the iteration order itself, however, is
whatever the map range yields, not a lexicographic one (see the
counterexample). -/
theorem C2_run_order_independent {σ ρ π : Type} (rlog rexp : ℚ → ℚ)
    (pick₁ pick₂ : List String → List String)
    (hp₁ : ∀ l, (pick₁ l).Perm l) (hp₂ : ∀ l, (pick₂ l).Perm l)
    (cfg : Config) (strat : StrategyM σ) (port : Option (PortfolioM π))
    (s0 : σ) (r0 : ρ) (p0 : π) (series : List (String × List Candle)) :
    run rlog rexp pick₁ cfg strat (none : Option (RiskM ρ)) port s0 r0 p0 series =
      run rlog rexp pick₂ cfg strat none port s0 r0 p0 series := by
  simp only [run]
  by_cases hall : flatten series = []
  · rw [if_pos hall, if_pos hall]
  · rw [if_neg hall, if_neg hall]
    have hfold : ∀ (gs : List (List Candle)) (a₁ a₂ : RunState σ ρ π), rsEq a₁ a₂ →
        rsEq (gs.foldl (groupStep rlog rexp pick₁ cfg.withDefaults strat none port) a₁)
          (gs.foldl (groupStep rlog rexp pick₂ cfg.withDefaults strat none port) a₂) := by
      intro gs
      induction gs with
      | nil => exact fun a₁ a₂ h => h
      | cons g gs ih =>
          intro a₁ a₂ h
          rw [List.foldl_cons, List.foldl_cons]
          exact ih _ _ (groupStep_pick_equiv rlog rexp pick₁ pick₂ hp₁ hp₂
            cfg.withDefaults strat port h g)
    obtain ⟨he, hpk, hm, hst, hcv, htr, hss, hrs, hps⟩ :=
      hfold (groupsByTs (flatten series))
        { eq := cfg.withDefaults.initialEquity,
          peak := cfg.withDefaults.initialEquity, maxDD := F.fin 0,
          states := series.foldl (fun st p => aset st p.1 instState0) [],
          curve := [], trades := [], sstate := s0, rstate := r0, pstate := p0 }
        _ (rsEq_refl _)
    rw [he, hcv, htr, hm]

/-- Configuration for the C2 scenario (no zero-valued field is defaulted
except the unused maker fee). -/
def c2cfg : Config :=
  { initialEquity := F.fin 1, barMinutes := 5, tradeOnNextBar := true,
    takerFeeBps := F.fin 1, makerFeeBps := F.fin 0, slippageBps := F.fin 1,
    useMaker := false, minRebalanceStep := F.fin (1/100),
    maxAbsPosition := F.fin 1, beforeFill := none, afterFill := none }

/-- Strategy for the C2 scenario: buy 1 of every instrument on every bar. -/
def c2strat : StrategyM Unit :=
  { name := "c2",
    onCandle := fun _ k =>
      ((), [{ instID := k.instID, side := "buy", size := F.fin 1, price := k.c,
              tag := "", meta := [] }]) }

/-- A constant-price candle for the C2 scenario. -/
def c2bar (inst : String) (ts : ℤ) : Candle :=
  { instID := inst, t := ts, o := F.fin 10, h := F.fin 10, l := F.fin 10,
    c := F.fin 10, v := F.fin 0 }

/-- Two instruments sharing one bar timestamp. -/
def c2series : List (String × List Candle) :=
  [("A", [c2bar "A" 0]), ("B", [c2bar "B" 0])]

/-- C2 witness: on the concrete two-instrument series, the run with the
identity iteration order equals the run with the reversed iteration
order. -/
theorem C2_witness :
    run qzero qzero (fun l => l) c2cfg c2strat (none : Option (RiskM Unit))
        (none : Option (PortfolioM Unit)) () () () c2series =
      run qzero qzero (fun l => List.reverse l) c2cfg c2strat none none
        () () () c2series :=
  C2_run_order_independent qzero qzero (fun l => l) (fun l => List.reverse l)
    (fun l => List.Perm.refl l) (fun l => List.reverse_perm l) c2cfg c2strat
    none () () () c2series

/-- C2 counterexample to the claim's lexicographic-iteration clause: step
2.4 ranges over the `targets` map in Go's unspecified order — the code
sorts nothing — so both the identity order and the reversed order are
admissible iterations (both oracles are permutations), and they visit the
two instruments in opposite orders, observable in the insertion order of
the state map either run leaves behind. -/
theorem C2_counterexample :
    (∀ l : List String, ((fun l : List String => l) l).Perm l) ∧
    (∀ l : List String, ((fun l : List String => List.reverse l) l).Perm l) ∧
    (scheduleTargets (fun l => l) c2cfg (none : Option (RiskM Unit)) 0 []
        [("A", F.fin 1), ("B", F.fin 1)] [] ()).1.map Prod.fst = ["A", "B"] ∧
    (scheduleTargets (fun l => List.reverse l) c2cfg (none : Option (RiskM Unit))
        0 [] [("A", F.fin 1), ("B", F.fin 1)] [] ()).1.map Prod.fst = ["B", "A"] := by
  refine ⟨fun l => List.Perm.refl l, fun l => List.reverse_perm l, ?_, ?_⟩ <;>
    norm_num [scheduleTargets, scheduleInst, alookup, aset, c2cfg, instState0,
      decideApplyTs, nextBarTs, abs_of_nonneg,
      show ("A" : String) ≠ "B" by decide, show ("B" : String) ≠ "A" by decide]

/-! ## C7: NaN / finiteness of the equity curve

Step 2.1 guards the per-bar return with `st.lastClose > 0 && st.pos != 0`,
which zeroes the contribution of a zero or negative *previous* close, but
nothing guards the *current* close `k.C` before `math.Log(k.C/st.lastClose)`
(part_001 lines 254-262): a NaN close propagates straight into `eq`.  The
development below proves the positive statement — with all opens and closes
positive finite numbers, finite fees and no hooks, every equity value is
finite — and exhibits the NaN propagation. -/

/-- `x` is a finite (non-NaN, non-infinite) float. -/
def F.isFinite : F → Bool
  | F.fin _ => true
  | _ => false

/-- Propositional form of finiteness. -/
def finF (x : F) : Prop := ∃ q, x = F.fin q

theorem isFinite_iff (x : F) : x.isFinite = true ↔ finF x := by
  cases x <;> simp [F.isFinite, finF]

/-- `x` is a strictly positive finite float. -/
def posF (x : F) : Prop := ∃ q, x = F.fin q ∧ 0 < q

theorem finF_fadd {a b : F} (ha : finF a) (hb : finF b) : finF (fadd a b) := by
  obtain ⟨qa, rfl⟩ := ha
  obtain ⟨qb, rfl⟩ := hb
  exact ⟨qa + qb, rfl⟩

theorem finF_fneg {a : F} (ha : finF a) : finF (fneg a) := by
  obtain ⟨qa, rfl⟩ := ha
  exact ⟨-qa, rfl⟩

theorem finF_fsub {a b : F} (ha : finF a) (hb : finF b) : finF (fsub a b) := by
  obtain ⟨qa, rfl⟩ := ha
  obtain ⟨qb, rfl⟩ := hb
  exact ⟨qa - qb, by simp⟩

theorem finF_fmul {a b : F} (ha : finF a) (hb : finF b) : finF (fmul a b) := by
  obtain ⟨qa, rfl⟩ := ha
  obtain ⟨qb, rfl⟩ := hb
  exact ⟨qa * qb, rfl⟩

theorem finF_fabs {a : F} (ha : finF a) : finF (fabs a) := by
  obtain ⟨qa, rfl⟩ := ha
  exact ⟨|qa|, rfl⟩

theorem finF_fmaxGo {a b : F} (ha : finF a) (hb : finF b) : finF (fmaxGo a b) := by
  obtain ⟨qa, rfl⟩ := ha
  obtain ⟨qb, rfl⟩ := hb
  exact ⟨max qa qb, by simp⟩

theorem finF_fexp (rexp : ℚ → ℚ) {a : F} (ha : finF a) : finF (fexp rexp a) := by
  obtain ⟨qa, rfl⟩ := ha
  exact ⟨rexp qa, rfl⟩

theorem finF_fdiv {a b : F} (ha : finF a) {qb : ℚ} (hb : b = F.fin qb)
    (hqb : qb ≠ 0) : finF (fdiv a b) := by
  obtain ⟨qa, rfl⟩ := ha
  subst hb
  exact ⟨qa / qb, by simp [hqb]⟩

theorem finF_clamp {v lo hi : F} (hv : finF v) (hlo : finF lo) (hhi : finF hi) :
    finF (clamp v lo hi) := by
  unfold clamp
  split_ifs <;> assumption

/-- Finiteness of the fields of a per-instrument state that feed equity. -/
def finSt (st : InstState) : Prop :=
  finF st.pos ∧ finF st.lastClose ∧
  ∀ p, st.pendingTarget = some p → finF p.target

theorem finSt_instState0 : finSt instState0 :=
  ⟨⟨0, rfl⟩, ⟨0, rfl⟩, fun p hp => by simp [instState0] at hp⟩

/-- Every reachable entry of the state map is finite. -/
def finStates (m : List (String × InstState)) : Prop :=
  ∀ inst st, alookup m inst = some st → finSt st

theorem finStates_aset {m : List (String × InstState)} (hm : finStates m)
    {v : InstState} (hv : finSt v) (k : String) : finStates (aset m k v) := by
  intro inst st h
  by_cases hk : k = inst
  · subst hk
    rw [alookup_aset_self] at h
    exact (Option.some.inj h) ▸ hv
  · rw [alookup_aset_ne _ _ _ _ hk] at h
    exact hm inst st h

theorem groupSumRet_finite (rlog : ℚ → ℚ) {states : List (String × InstState)}
    (hs : finStates states) {g : List Candle} (hg : ∀ k ∈ g, posF k.c) :
    finF (groupSumRet rlog states g) := by
  unfold groupSumRet
  have H : ∀ (g' : List Candle) (acc : F), (∀ k ∈ g', posF k.c) → finF acc →
      finF (g'.foldl (fun acc k =>
        match alookup states k.instID with
        | some st =>
            if flt (F.fin 0) st.lastClose && !(fbeq st.pos (F.fin 0)) then
              fadd acc (fmul st.pos (flog rlog (fdiv k.c st.lastClose)))
            else acc
        | none => acc) acc) := by
    intro g'
    induction g' with
    | nil => exact fun acc _ h => h
    | cons k g' ih =>
        intro acc hkg hacc
        rw [List.foldl_cons]
        refine ih _ (fun x hx => hkg x (List.mem_cons_of_mem _ hx)) ?_
        cases ha : alookup states k.instID with
        | none => simpa [ha] using hacc
        | some st =>
            simp only [ha]
            by_cases hcond :
                (flt (F.fin 0) st.lastClose && !(fbeq st.pos (F.fin 0))) = true
            · rw [if_pos hcond]
              obtain ⟨⟨qp, hqp⟩, ⟨ql, hql⟩, _⟩ := hs _ _ ha
              obtain ⟨qc, hkc, hqc⟩ := hkg k (List.mem_cons_self k g')
              rw [hql] at hcond
              have hql0 : 0 < ql := by
                have := (Bool.and_eq_true _ _).mp hcond |>.1
                simpa using this
              refine finF_fadd hacc (finF_fmul ⟨qp, hqp⟩ ?_)
              rw [hkc, hql, fdiv_fin _ _ (ne_of_gt hql0),
                flog_fin_pos _ _ (div_pos hqc hql0)]
              exact ⟨_, rfl⟩
            · rw [if_neg hcond]
              exact hacc
  exact H g (F.fin 0) hg ⟨0, rfl⟩

theorem sideTargetVal_finite {maxAbs : F} (hm : finF maxAbs) {s : Signal}
    (hs : finF s.size) : finF (sideTargetVal maxAbs s) := by
  unfold sideTargetVal
  refine finF_clamp ?_ (finF_fneg hm) hm
  split_ifs
  · exact finF_fmaxGo hs ⟨0, rfl⟩
  · exact finF_fneg (finF_fmaxGo hs ⟨0, rfl⟩)
  · exact ⟨0, rfl⟩
  · exact hs

theorem resolveTargets_finite {maxAbs : F} (hm : finF maxAbs)
    {sigs : List Signal} (hsigs : ∀ sig ∈ sigs, finF sig.size) :
    ∀ inst t, alookup (resolveTargets maxAbs sigs) inst = some t → finF t := by
  unfold resolveTargets
  have H : ∀ (sigs' : List Signal) (acc : List (String × F)),
      (∀ inst t, alookup acc inst = some t → finF t) →
      (∀ sig ∈ sigs', finF sig.size) →
      ∀ inst t, alookup (sigs'.foldl
        (fun tgts s => aset tgts s.instID (sideTargetVal maxAbs s)) acc)
        inst = some t → finF t := by
    intro sigs'
    induction sigs' with
    | nil => exact fun acc hacc _ => hacc
    | cons s sigs' ih =>
        intro acc hacc hsz
        rw [List.foldl_cons]
        refine ih _ ?_ (fun x hx => hsz x (List.mem_cons_of_mem _ hx))
        intro inst t h
        by_cases hk : s.instID = inst
        · subst hk
          rw [alookup_aset_self] at h
          exact (Option.some.inj h) ▸
            sideTargetVal_finite hm (hsz s (List.mem_cons_self s sigs'))
        · rw [alookup_aset_ne _ _ _ _ hk] at h
          exact hacc inst t h
  exact H sigs [] (fun inst t h => by simp [alookup] at h) hsigs

theorem schedVal_finSt (cfg : Config) (ts : ℤ) {o : Option InstState}
    (ho : ∀ s, o = some s → finSt s) {tgt : F} (htgt : finF tgt) :
    ∀ s', schedVal cfg ts o tgt = some s' → finSt s' := by
  intro s' h
  have hss : finSt (o.getD instState0) := by
    cases o with
    | none => exact finSt_instState0
    | some s => exact ho s rfl
  unfold schedVal at h
  dsimp only at h
  split_ifs at h
  · exact (Option.some.inj h) ▸ hss
  · refine (Option.some.inj h) ▸ ⟨hss.1, hss.2.1, ?_⟩
    intro p hp
    simp only [] at hp
    rcases hpt : (o.getD instState0).pendingTarget with _ | p₀
    · rw [hpt] at hp
      simp at hp
      rw [← hp]
      exact htgt
    · rw [hpt] at hp
      simp at hp
      rw [← hp]
      exact hss.2.2 p₀ hpt

theorem scheduleInst_none_finStates {ρ : Type} (cfg : Config) (ts : ℤ)
    (group : List Candle) {states : List (String × InstState)} (r : ρ)
    (hs : finStates states) (inst : String) {tgt : F} (htgt : finF tgt) :
    finStates (scheduleInst cfg none ts group (states, r) inst tgt).1 := by
  intro x st h
  by_cases hx : inst = x
  · subst hx
    rw [scheduleInst_none_lookup_self] at h
    exact schedVal_finSt cfg ts (fun s hs' => hs inst s hs') htgt st h
  · rw [scheduleInst_none_lookup_ne cfg ts group (states, r) inst x tgt hx] at h
    exact hs x st h

theorem scheduleTargets_none_finStates {ρ : Type}
    (pick : List String → List String) (cfg : Config) (ts : ℤ)
    (group : List Candle) {targets : List (String × F)}
    (htg : ∀ inst t, alookup targets inst = some t → finF t)
    {states : List (String × InstState)} (hs : finStates states) (r : ρ) :
    finStates (scheduleTargets pick cfg none ts group targets states r).1 := by
  rw [scheduleTargets_eq_fold]
  have H : ∀ (l : List String) (a : List (String × InstState) × ρ),
      finStates a.1 →
      finStates (l.foldl (schedStep cfg none ts group targets) a).1 := by
    intro l
    induction l with
    | nil => exact fun a h => h
    | cons x l ih =>
        intro a h
        rw [List.foldl_cons]
        refine ih _ ?_
        unfold schedStep
        cases htx : alookup targets x with
        | none => exact h
        | some tgt =>
            have : finStates (scheduleInst cfg none ts group (a.1, a.2) x tgt).1 :=
              scheduleInst_none_finStates cfg ts group a.2 h x (htg x tgt htx)
            exact this
  exact H _ _ hs

theorem applyFill_finite (rlog : ℚ → ℚ) (cfg : Config)
    {states : List (String × InstState)} (hs : finStates states)
    (inst : String) {target refPx : F} (ht : finF target) (hpx : finF refPx)
    (ts : ℤ) (tr : List Trade) {e : F} (he : finF e)
    (hfee : finF cfg.takerFeeBps) (hmk : finF cfg.makerFeeBps)
    (hsl : finF cfg.slippageBps) :
    finStates (applyFill rlog cfg none none states inst target refPx ts tr e).1 ∧
      finF (applyFill rlog cfg none none states inst target refPx ts tr e).2.2 := by
  cases ha : alookup states inst with
  | none =>
      simp only [applyFill, ha]
      exact ⟨hs, he⟩
  | some s =>
      have hsfin := hs inst s ha
      simp only [applyFill, ha]
      by_cases hc : flt (fabs (fsub target s.pos)) (F.fin (1/1000000000)) = true <;>
        simp only [hc, Bool.false_eq_true, if_true, if_false]
      · exact ⟨hs, he⟩
      · have hcost : finF (fadd
            (if cfg.useMaker = true then cfg.makerFeeBps else cfg.takerFeeBps)
            cfg.slippageBps) := by
          refine finF_fadd ?_ hsl
          split_ifs
          · exact hmk
          · exact hfee
        constructor
        · refine finStates_aset hs ?_ inst
          split_ifs <;>
            exact ⟨ht, hsfin.2.1, hsfin.2.2⟩
        · exact finF_fmul he (finF_fsub ⟨1, rfl⟩ (finF_fmul
            (finF_fabs (finF_fsub ht hsfin.1))
            (finF_fdiv hcost rfl (by norm_num))))

theorem apStep_finite (rlog : ℚ → ℚ) (cfg : Config) (ts : ℤ) (k : Candle)
    {a : List (String × InstState) × List Trade × F}
    (hs : finStates a.1) (he : finF a.2.2) (hk : posF k.o ∧ posF k.c)
    (hfee : finF cfg.takerFeeBps) (hmk : finF cfg.makerFeeBps)
    (hsl : finF cfg.slippageBps) :
    finStates (apStep rlog cfg none none ts a k).1 ∧
      finF (apStep rlog cfg none none ts a k).2.2 := by
  cases ha : alookup a.1 k.instID with
  | none =>
      simp only [apStep, ha]
      exact ⟨hs, he⟩
  | some st =>
      cases hp : st.pendingTarget with
      | none =>
          simp only [apStep, ha, hp]
          exact ⟨hs, he⟩
      | some p =>
          by_cases hdue : p.applyAt ≤ ts
          · simp only [apStep, ha, hp, if_pos hdue]
            have hpt : finF p.target := (hs _ _ ha).2.2 p hp
            have hpx : finF (refPriceForFill cfg.tradeOnNextBar k) := by
              unfold refPriceForFill
              split_ifs
              · obtain ⟨q, hq, _⟩ := hk.1
                exact ⟨q, hq⟩
              · obtain ⟨q, hq, _⟩ := hk.2
                exact ⟨q, hq⟩
            have hf := applyFill_finite rlog cfg hs k.instID hpt hpx ts a.2.1 he
              hfee hmk hsl
            have hst' : finSt ((alookup (applyFill rlog cfg none none a.1 k.instID
                p.target (refPriceForFill cfg.tradeOnNextBar k) ts a.2.1
                a.2.2).1 k.instID).getD instState0) := by
              cases hb : alookup (applyFill rlog cfg none none a.1 k.instID
                  p.target (refPriceForFill cfg.tradeOnNextBar k) ts a.2.1
                  a.2.2).1 k.instID with
              | none => exact finSt_instState0
              | some s' => exact hf.1 _ _ hb
            refine ⟨?_, hf.2⟩
            refine finStates_aset hf.1 ?_ k.instID
            exact ⟨hst'.1, hst'.2.1, fun p' hp' => by simp at hp'⟩
          · simp only [apStep, ha, hp, if_neg hdue]
            exact ⟨hs, he⟩

theorem applyPendings_finite (rlog : ℚ → ℚ) (cfg : Config) (ts : ℤ)
    {g : List Candle} (hg : ∀ k ∈ g, posF k.o ∧ posF k.c)
    {a : List (String × InstState) × List Trade × F}
    (hs : finStates a.1) (he : finF a.2.2)
    (hfee : finF cfg.takerFeeBps) (hmk : finF cfg.makerFeeBps)
    (hsl : finF cfg.slippageBps) :
    finStates (applyPendings rlog cfg none none ts g a).1 ∧
      finF (applyPendings rlog cfg none none ts g a).2.2 := by
  rw [applyPendings_eq_fold]
  have H : ∀ (g' : List Candle) (a' : List (String × InstState) × List Trade × F),
      (∀ k ∈ g', posF k.o ∧ posF k.c) → finStates a'.1 → finF a'.2.2 →
      finStates (g'.foldl (apStep rlog cfg none none ts) a').1 ∧
        finF (g'.foldl (apStep rlog cfg none none ts) a').2.2 := by
    intro g'
    induction g' with
    | nil => exact fun a' _ hs' he' => ⟨hs', he'⟩
    | cons k g' ih =>
        intro a' hg' hs' he'
        rw [List.foldl_cons]
        have h1 := apStep_finite rlog cfg ts k hs' he'
          (hg' k (List.mem_cons_self k g')) hfee hmk hsl
        exact ih _ (fun x hx => hg' x (List.mem_cons_of_mem _ hx)) h1.1 h1.2
  exact H g a hg hs he

theorem rollStates_finite {states : List (String × InstState)}
    (hs : finStates states) {g : List Candle} (hg : ∀ k ∈ g, posF k.c) :
    finStates (rollStates states g) := by
  unfold rollStates
  have H : ∀ (g' : List Candle) (m : List (String × InstState)),
      (∀ k ∈ g', posF k.c) → finStates m →
      finStates (g'.foldl (fun states k =>
        let st := (alookup states k.instID).getD instState0
        aset states k.instID
          { st with lastClose := k.c,
                    holding := if !(fbeq st.pos (F.fin 0)) then st.holding + 1
                               else 0 }) m) := by
    intro g'
    induction g' with
    | nil => exact fun m _ hm => hm
    | cons k g' ih =>
        intro m hg' hm
        rw [List.foldl_cons]
        refine ih _ (fun x hx => hg' x (List.mem_cons_of_mem _ hx)) ?_
        have hst : finSt ((alookup m k.instID).getD instState0) := by
          cases hb : alookup m k.instID with
          | none => exact finSt_instState0
          | some s' => exact hm _ _ hb
        obtain ⟨qc, hqc, _⟩ := hg' k (List.mem_cons_self k g')
        refine finStates_aset hm ?_ k.instID
        exact ⟨hst.1, ⟨qc, hqc⟩, hst.2.2⟩
  exact H g states hg hs

/-- Invariant of the main loop: current equity finite, all reachable
instrument states finite, all recorded equities finite. -/
def runInv {σ ρ π : Type} (rs : RunState σ ρ π) : Prop :=
  finF rs.eq ∧ finStates rs.states ∧ ∀ b ∈ rs.curve, finF b.equity

theorem collectSigs_finite {σ : Type} (strat : StrategyM σ)
    (hsig : ∀ s k sig, sig ∈ (strat.onCandle s k).2 → finF sig.size)
    (g : List Candle) (s0 : σ) :
    ∀ sig ∈ (g.foldl (fun acc k =>
      let r := strat.onCandle acc.1 k
      (r.1, acc.2 ++ r.2)) (s0, ([] : List Signal))).2, finF sig.size := by
  have H : ∀ (g' : List Candle) (acc : σ × List Signal),
      (∀ sig ∈ acc.2, finF sig.size) →
      ∀ sig ∈ (g'.foldl (fun acc k =>
        let r := strat.onCandle acc.1 k
        (r.1, acc.2 ++ r.2)) acc).2, finF sig.size := by
    intro g'
    induction g' with
    | nil => exact fun acc h => h
    | cons k g' ih =>
        intro acc hacc
        rw [List.foldl_cons]
        refine ih _ ?_
        intro sig hs
        rcases List.mem_append.mp hs with h | h
        · exact hacc sig h
        · exact hsig acc.1 k sig h
  exact H g (s0, []) (fun sig h => by simp at h)

theorem initStates_fin (series : List (String × List Candle)) :
    finStates (series.foldl (fun st p => aset st p.1 instState0) []) := by
  have H : ∀ (s' : List (String × List Candle))
      (acc : List (String × InstState)), finStates acc →
      finStates (s'.foldl (fun st p => aset st p.1 instState0) acc) := by
    intro s'
    induction s' with
    | nil => exact fun acc h => h
    | cons p s' ih =>
        intro acc hacc
        rw [List.foldl_cons]
        refine ih _ ?_
        refine finStates_aset hacc ?_ p.1
        exact finSt_instState0
  exact H series [] (fun inst st h => by simp [alookup] at h)

/-- Steps 2.4-2.8 preserve the finiteness invariant (no hooks, finite fees,
positive finite opens and closes, finite targets). -/
theorem groupTailInv {σ ρ π : Type} (rlog : ℚ → ℚ)
    (pick : List String → List String) (cfg : Config) (ts : ℤ)
    (g : List Candle) (targets : List (String × F))
    {st : List (String × InstState)} (hst : finStates st) (r : ρ)
    (tr : List Trade) {e : F} (he : finF e) (pk mdd sum : F)
    {cv : List BarRecord} (hcv : ∀ b ∈ cv, finF b.equity) (ss : σ) (ps : π)
    (htg : ∀ inst t, alookup targets inst = some t → finF t)
    (hg : ∀ k ∈ g, posF k.o ∧ posF k.c)
    (hfee : finF cfg.takerFeeBps) (hmk : finF cfg.makerFeeBps)
    (hsl : finF cfg.slippageBps)
    (hbf : cfg.beforeFill = none) (haf : cfg.afterFill = none) :
    runInv
      (let ap := applyPendings rlog cfg cfg.beforeFill cfg.afterFill ts g
        ((scheduleTargets pick cfg none ts g targets st r).1, tr, e)
       let eq := ap.2.2
       let peak := if flt pk eq then eq else pk
       let dd := fdiv (fsub peak eq) (fadd peak (F.fin (1/1000000000000)))
       { eq := eq, peak := peak,
         maxDD := if flt mdd dd then dd else mdd,
         states := rollStates ap.1 g,
         curve := cv ++ [{ ts := ts, equity := eq, retv := sum, drawdown := dd }],
         trades := ap.2.1, sstate := ss,
         rstate := (scheduleTargets pick cfg none ts g targets st r).2,
         pstate := ps }) := by
  rw [hbf, haf]
  have hsch : finStates (scheduleTargets pick cfg none ts g targets st r).1 :=
    scheduleTargets_none_finStates pick cfg ts g htg hst r
  have hap := applyPendings_finite rlog cfg ts hg
    (a := ((scheduleTargets pick cfg none ts g targets st r).1, tr, e))
    hsch he hfee hmk hsl
  unfold runInv
  dsimp only
  refine ⟨hap.2, rollStates_finite hap.1 (fun k hk => (hg k hk).2), ?_⟩
  intro b hb
  rcases List.mem_append.mp hb with h | h
  · exact hcv b h
  · simp at h
    rw [h]
    exact hap.2

/-- One loop iteration preserves the finiteness invariant (risk and
portfolio absent). -/
theorem groupStep_runInv {σ ρ π : Type} (rlog rexp : ℚ → ℚ)
    (pick : List String → List String) (cfg : Config) (strat : StrategyM σ)
    (hsig : ∀ s k sig, sig ∈ (strat.onCandle s k).2 → finF sig.size)
    (hmax : finF cfg.maxAbsPosition)
    (hfee : finF cfg.takerFeeBps) (hmk : finF cfg.makerFeeBps)
    (hsl : finF cfg.slippageBps)
    (hbf : cfg.beforeFill = none) (haf : cfg.afterFill = none)
    {rs : RunState σ ρ π} (h : runInv rs) {g : List Candle}
    (hg : ∀ k ∈ g, posF k.o ∧ posF k.c) :
    runInv (groupStep rlog rexp pick cfg strat (none : Option (RiskM ρ))
      (none : Option (PortfolioM π)) rs g) := by
  obtain ⟨he, hstates, hcv⟩ := h
  have hsum : finF (groupSumRet rlog rs.states g) :=
    groupSumRet_finite rlog hstates (fun k hk => (hg k hk).2)
  simp only [groupStep]
  refine groupTailInv rlog pick cfg _ g _ hstates _ _ ?_ _ _ _ hcv _ _ ?_ hg
    hfee hmk hsl hbf haf
  · split_ifs
    · exact finF_fmul he (finF_fexp rexp hsum)
    · exact he
  · exact resolveTargets_finite hmax (collectSigs_finite strat hsig g rs.sstate)

theorem groupsByTs_mem : ∀ (l : List Candle) (g : List Candle),
    g ∈ groupsByTs l → ∀ k ∈ g, k ∈ l := by
  intro l
  induction l with
  | nil =>
      intro g hg
      simp [groupsByTs] at hg
  | cons x l ih =>
      intro g hg k hk
      rw [show groupsByTs (x :: l) = (match groupsByTs l with
        | [] => [[x]]
        | g :: rest =>
          match g with
          | [] => [x] :: rest
          | k' :: _ => if x.t = k'.t then (x :: g) :: rest
                       else [x] :: g :: rest) from rfl] at hg
      cases hgs : groupsByTs l with
      | nil =>
          rw [hgs] at hg
          simp at hg
          subst hg
          simp at hk
          rw [hk]
          exact List.mem_cons_self _ _
      | cons g₀ rest =>
          rw [hgs] at hg
          cases g₀ with
          | nil =>
              dsimp only at hg
              simp at hg
              rcases hg with hg | hg
              · subst hg
                simp at hk
                rw [hk]
                exact List.mem_cons_self _ _
              · exact List.mem_cons_of_mem x
                  (ih g (by rw [hgs]; exact List.mem_cons_of_mem _ hg) k hk)
          | cons k' t =>
              dsimp only at hg
              by_cases hxt : x.t = k'.t
              · rw [if_pos hxt] at hg
                simp at hg
                rcases hg with hg | hg
                · subst hg
                  rcases List.mem_cons.mp hk with hk | hk
                  · rw [hk]
                    exact List.mem_cons_self _ _
                  · refine List.mem_cons_of_mem x
                      (ih (k' :: t) ?_ k hk)
                    rw [hgs]
                    exact List.mem_cons_self _ _
                · exact List.mem_cons_of_mem x
                    (ih g (by rw [hgs]; exact List.mem_cons_of_mem _ hg) k hk)
              · rw [if_neg hxt] at hg
                rcases List.mem_cons.mp hg with hg | hg
                · subst hg
                  simp at hk
                  rw [hk]
                  exact List.mem_cons_self _ _
                · exact List.mem_cons_of_mem x
                    (ih g (by rw [hgs]; exact hg) k hk)

/-- C7 (amended).  With every open and close of the flattened series a
strictly positive finite number, every strategy signal size finite, finite
fees/slippage/max-position, finite initial equity and no fill hooks (and no
risk or portfolio component), no NaN or infinity reaches equity: every
equity value on the curve and the final equity are finite.  The original
claim is false for arbitrary inputs — the step-2.1 guard checks only
`st.lastClose > 0`, never the current close, so a NaN (or negative) close
propagates into `eq`; see the counterexample. -/
theorem C7_equity_finite {σ ρ π : Type} (rlog rexp : ℚ → ℚ)
    (pick : List String → List String) (cfg : Config) (strat : StrategyM σ)
    (s0 : σ) (r0 : ρ) (p0 : π) (series : List (String × List Candle))
    (hC : ∀ k ∈ flatten series, posF k.o ∧ posF k.c)
    (hsig : ∀ s k sig, sig ∈ (strat.onCandle s k).2 → finF sig.size)
    (hfee : finF cfg.withDefaults.takerFeeBps)
    (hmk : finF cfg.withDefaults.makerFeeBps)
    (hsl : finF cfg.withDefaults.slippageBps)
    (hmax : finF cfg.withDefaults.maxAbsPosition)
    (hinit : finF cfg.withDefaults.initialEquity)
    (hbf : cfg.withDefaults.beforeFill = none)
    (haf : cfg.withDefaults.afterFill = none) :
    ((run rlog rexp pick cfg strat (none : Option (RiskM ρ))
        (none : Option (PortfolioM π)) s0 r0 p0 series).equityCurve.all
      (fun b => b.equity.isFinite)) = true ∧
    ((run rlog rexp pick cfg strat (none : Option (RiskM ρ))
        (none : Option (PortfolioM π)) s0 r0 p0 series).finalEquity.isFinite)
      = true := by
  simp only [run]
  by_cases hall : flatten series = []
  · rw [if_pos hall]
    exact ⟨rfl, rfl⟩
  · rw [if_neg hall]
    have HInv : ∀ (gs : List (List Candle)),
        (∀ g ∈ gs, ∀ k ∈ g, posF k.o ∧ posF k.c) →
        ∀ (a : RunState σ ρ π), runInv a →
        runInv (gs.foldl
          (groupStep rlog rexp pick cfg.withDefaults strat none none) a) := by
      intro gs
      induction gs with
      | nil => exact fun _ a h => h
      | cons g gs ih =>
          intro hgs a h
          rw [List.foldl_cons]
          exact ih (fun g' hg' => hgs g' (List.mem_cons_of_mem _ hg')) _
            (groupStep_runInv rlog rexp pick cfg.withDefaults strat hsig hmax
              hfee hmk hsl hbf haf h (hgs g (List.mem_cons_self g gs)))
    obtain ⟨hfe, hfs, hfc⟩ := HInv (groupsByTs (flatten series))
      (fun g hgm k hk => hC k (groupsByTs_mem (flatten series) g hgm k hk))
      { eq := cfg.withDefaults.initialEquity,
        peak := cfg.withDefaults.initialEquity, maxDD := F.fin 0,
        states := series.foldl (fun st p => aset st p.1 instState0) [],
        curve := [], trades := [], sstate := s0, rstate := r0, pstate := p0 }
      ⟨hinit, initStates_fin series, fun b hb => by simp at hb⟩
    constructor
    · rw [List.all_eq_true]
      intro b hb
      exact (isFinite_iff _).mpr (hfc b hb)
    · exact (isFinite_iff _).mpr hfe

/-! Evaluation lemmas for NaN propagation. -/

theorem fdiv_nan (b : F) : fdiv F.nan b = F.nan := by cases b <;> rfl

theorem flog_nan (r : ℚ → ℚ) : flog r F.nan = F.nan := rfl

theorem fexp_nan (r : ℚ → ℚ) : fexp r F.nan = F.nan := rfl

theorem fmul_fin_nan (a : ℚ) : fmul (F.fin a) F.nan = F.nan := rfl

theorem fadd_fin_nan (a : ℚ) : fadd (F.fin a) F.nan = F.nan := rfl

theorem fsub_fin_nan (a : ℚ) : fsub (F.fin a) F.nan = F.nan := rfl

theorem fbeq_nan (b : F) : fbeq F.nan b = false := by cases b <;> rfl

theorem flt_fin_nan (a : ℚ) : flt (F.fin a) F.nan = false := rfl

/-- Configuration for the C7 scenario: same-bar fills, 1 bp fee + 1 bp
slippage, no zero field defaulted except the unused maker fee. -/
def c7cfg : Config :=
  { initialEquity := F.fin 1, barMinutes := 5, tradeOnNextBar := false,
    takerFeeBps := F.fin 1, makerFeeBps := F.fin 0, slippageBps := F.fin 1,
    useMaker := false, minRebalanceStep := F.fin (1/100),
    maxAbsPosition := F.fin 1, beforeFill := none, afterFill := none }

/-- Strategy for the C7 scenario: buy 1 on the first bar, nothing after. -/
def c7strat : StrategyM ℕ :=
  { name := "c7",
    onCandle := fun n k =>
      (n + 1,
        if n = 0 then
          [{ instID := "X", side := "buy", size := F.fin 1, price := k.c,
             tag := "", meta := [] }]
        else []) }

/-- A bar for instrument `X` with a chosen close. -/
def c7bar (ts : ℤ) (c : F) : Candle :=
  { instID := "X", t := ts, o := F.fin 100, h := F.fin 100, l := F.fin 100,
    c := c, v := F.fin 0 }

/-- Two bars: a normal one, then one whose close is NaN. -/
def c7series : List (String × List Candle) :=
  [("X", [c7bar 0 (F.fin 100), c7bar 300000 F.nan])]

/-- Two normal bars (for the witness). -/
def c7wseries : List (String × List Candle) :=
  [("X", [c7bar 0 (F.fin 100)])]

/-- C7 counterexample: buy 1 at bar 0 (filled at the same bar's close),
then a NaN close at bar 1.  The step-2.1 guard `st.lastClose > 0 &&
st.pos != 0` passes, `math.Log(NaN/100)` is NaN, and the equity recorded at
bar 1 is NaN — NaN is propagated into equity, refuting the claim. -/
theorem C7_counterexample :
    ((run qzero qzero (fun l => l) c7cfg c7strat (none : Option (RiskM Unit))
        (none : Option (PortfolioM Unit)) 0 () () c7series).equityCurve.map
      (fun b => b.equity)) = [F.fin (4999/5000), F.nan] := by
  norm_num [run, Config.withDefaults, c7cfg, c7strat, c7series, c7bar, qzero,
    flatten, stableSort, sInsert, candLess, groupsByTs, groupStep,
    groupSumRet, resolveTargets, sideTargetVal, scheduleTargets, scheduleInst,
    applyPendings, applyFill, rollStates, findInGroup, decideApplyTs,
    nextBarTs, refPriceForFill, alookup, aset, instState0, clamp, sign,
    sideOf, dirName, flog, fexp, fdiv, max_def, abs_of_nonneg, abs_of_nonpos,
    fdiv_nan, flog_nan, fexp_nan, fmul_fin_nan, fadd_fin_nan, fsub_fin_nan,
    fbeq_nan, flt_fin_nan]
  rw [if_neg (List.cons_ne_nil _ _)]
  rfl

/-- C7 witness: the amended theorem at a concrete all-positive input. -/
theorem C7_witness :
    ((run qzero qzero (fun l => l) c7cfg c7strat (none : Option (RiskM Unit))
        (none : Option (PortfolioM Unit)) 0 () () c7wseries).equityCurve.all
      (fun b => b.equity.isFinite)) = true ∧
    ((run qzero qzero (fun l => l) c7cfg c7strat (none : Option (RiskM Unit))
        (none : Option (PortfolioM Unit)) 0 () () c7wseries).finalEquity.isFinite)
      = true := by
  have hwd : c7cfg.withDefaults = c7cfg := by
    norm_num [Config.withDefaults, c7cfg]
  refine C7_equity_finite qzero qzero (fun l => l) c7cfg c7strat 0 () ()
    c7wseries ?_ ?_ ?_ ?_ ?_ ?_ ?_ ?_ ?_
  · intro k hk
    have hk' : k = c7bar 0 (F.fin 100) := by
      simpa [c7wseries, flatten, stableSort, sInsert, candLess, c7bar,
        show ("X" : String) ≠ "" by decide] using hk
    rw [hk']
    exact ⟨⟨100, rfl, by norm_num⟩, ⟨100, rfl, by norm_num⟩⟩
  · intro s k sig h
    simp only [c7strat] at h
    split_ifs at h
    · simp at h
      rw [h]
      exact ⟨1, rfl⟩
    · simp at h
  · rw [hwd]
    exact ⟨1, rfl⟩
  · rw [hwd]
    exact ⟨0, rfl⟩
  · rw [hwd]
    exact ⟨1, rfl⟩
  · rw [hwd]
    exact ⟨1, rfl⟩
  · rw [hwd]
    exact ⟨1, rfl⟩
  · rw [hwd]
    rfl
  · rw [hwd]
    rfl

end OkxGo
